import Mathlib

/-!
# Verification of the `resolve` DNS resolver library

A shallow embedding of the core of the `resolve` client-side DNS resolver
(wire codec, IDNA bridge, address utilities, resolver engine) together with
proofs and refutations of the specification's claims.

Bytes on the wire are modelled as `Nat` values kept below 256 by
construction; multi-byte integers are big-endian, matching the source.
-/

namespace Resolve

instance {ε α : Type _} [DecidableEq ε] [DecidableEq α] : DecidableEq (Except ε α)
  | .ok a, .ok b =>
    if h : a = b then .isTrue (by rw [h]) else .isFalse (by simp [h])
  | .ok _, .error _ => .isFalse (by simp)
  | .error _, .ok _ => .isFalse (by simp)
  | .error a, .error b =>
    if h : a = b then .isTrue (by rw [h]) else .isFalse (by simp [h])

/-! ## Errors (message.rs) -/

/-- `DecodeError` from message.rs. -/
inductive DecodeError where
  | ExtraneousData
  | ShortMessage
  | InvalidMessage
  | InvalidName
deriving DecidableEq, Repr

/-- `EncodeError` from message.rs. -/
inductive EncodeError where
  | InvalidName
  | TooLong
deriving DecidableEq, Repr

/-! ## Header data model (message.rs) -/

/-- `Qr`: query or response. `Query = 0`, `Response = 1`. -/
inductive Qr where
  | Query
  | Response
deriving DecidableEq, Repr

/-- `OpCode` with its numeric mapping. -/
inductive OpCode where
  | Query
  | Status
  | Notify
  | Update
  | Other (n : Nat)
deriving DecidableEq, Repr

/-- `OpCode::from_u8`. -/
def OpCode.from_u8 (u : Nat) : OpCode :=
  match u with
  | 0 => .Query
  | 2 => .Status
  | 4 => .Notify
  | 5 => .Update
  | n => .Other n

/-- `OpCode::to_u8`. -/
def OpCode.to_u8 : OpCode → Nat
  | .Query => 0
  | .Status => 2
  | .Notify => 4
  | .Update => 5
  | .Other n => n

/-- `RCode` with its numeric mapping. -/
inductive RCode where
  | NoError
  | FormatError
  | ServerFailure
  | NameError
  | NotImplemented
  | Refused
  | Other (n : Nat)
deriving DecidableEq, Repr

/-- `RCode::from_u8`. -/
def RCode.from_u8 (u : Nat) : RCode :=
  match u with
  | 0 => .NoError
  | 1 => .FormatError
  | 2 => .ServerFailure
  | 3 => .NameError
  | 4 => .NotImplemented
  | 5 => .Refused
  | n => .Other n

/-- `RCode::to_u8`. -/
def RCode.to_u8 : RCode → Nat
  | .NoError => 0
  | .FormatError => 1
  | .ServerFailure => 2
  | .NameError => 3
  | .NotImplemented => 4
  | .Refused => 5
  | .Other n => n

/-- `FullHeader`: all header data, including the four counts. -/
structure FullHeader where
  id : Nat
  qr : Qr
  op : OpCode
  authoritative : Bool
  truncated : Bool
  recursion_desired : Bool
  recursion_available : Bool
  rcode : RCode
  qd_count : Nat
  an_count : Nat
  ns_count : Nat
  ar_count : Nat
deriving DecidableEq, Repr

/-! ## Byte-level primitives -/

/-- `MESSAGE_LIMIT`: maximum size of a DNS message, in bytes. -/
def MESSAGE_LIMIT : Nat := 512

/-- `LABEL_LIMIT`: maximum length of a name segment. -/
def LABEL_LIMIT : Nat := 63

/-- `NAME_LIMIT`: maximum total length of a name, in encoded format. -/
def NAME_LIMIT : Nat := 255

/-- `Qr` cast to its `u8` representation (`qr as u8`). -/
def Qr.toNat : Qr → Nat
  | .Query => 0
  | .Response => 1

/-- Boolean flag cast to its `u8` representation (`flag as u8`). -/
def flagBit (b : Bool) : Nat := if b then 1 else 0

/-- Big-endian bytes of a `u16` value (`u16::to_be` + transmute). -/
def u16be (n : Nat) : List Nat := [(n % 65536) >>> 8, n % 256]

/-- Big-endian bytes of a `u32` value. -/
def u32be (n : Nat) : List Nat :=
  [(n % 4294967296) >>> 24, (n % 16777216) >>> 16, (n % 65536) >>> 8, n % 256]

/-- `u16::from_be` of two bytes. -/
def u16ofBe (hi lo : Nat) : Nat := (hi <<< 8) ||| lo

/-- `u32::from_be` of four bytes. -/
def u32ofBe (b0 b1 b2 b3 : Nat) : Nat :=
  (b0 <<< 24) ||| (b1 <<< 16) ||| (b2 <<< 8) ||| b3

/-- `MsgReader`: a cursor over the bytes of a single DNS message. -/
structure MsgReader where
  data : List Nat
  pos : Nat
deriving DecidableEq, Repr

namespace MsgReader

/-- `MsgReader::new`. -/
def new (data : List Nat) : MsgReader := ⟨data, 0⟩

/-- `MsgReader::remaining`. -/
def remaining (r : MsgReader) : Nat := r.data.length - r.pos

/-- `MsgReader::read` of `n` bytes: fails with `ShortMessage` when fewer
than `n` bytes remain. -/
def readBytes (r : MsgReader) (n : Nat) : Except DecodeError (List Nat × MsgReader) :=
  if r.pos + n ≤ r.data.length then
    .ok ((r.data.drop r.pos).take n, ⟨r.data, r.pos + n⟩)
  else
    .error .ShortMessage

/-- `MsgReader::read_byte`. -/
def readByte (r : MsgReader) : Except DecodeError (Nat × MsgReader) :=
  match r.readBytes 1 with
  | .ok (bs, r') => .ok (bs.headI, r')
  | .error e => .error e

/-- `MsgReader::finish`: `ExtraneousData` when unread bytes remain. -/
def finish (r : MsgReader) : Except DecodeError Unit :=
  if r.remaining = 0 then .ok () else .error .ExtraneousData

/-- `MsgReader::read_u16`. -/
def readU16 (r : MsgReader) : Except DecodeError (Nat × MsgReader) :=
  match r.readBytes 2 with
  | .ok ([b0, b1], r') => .ok (u16ofBe b0 b1, r')
  | .ok (_, _) => .error .ShortMessage
  | .error e => .error e

/-- `MsgReader::read_u32`. -/
def readU32 (r : MsgReader) : Except DecodeError (Nat × MsgReader) :=
  match r.readBytes 4 with
  | .ok ([b0, b1, b2, b3], r') => .ok (u32ofBe b0 b1 b2 b3, r')
  | .ok (_, _) => .error .ShortMessage
  | .error e => .error e

end MsgReader

/-- `MsgWriter`: writes into a byte slice of length `bufLen`; `data` is the
written prefix, whose length is the cursor position. -/
structure MsgWriter where
  bufLen : Nat
  data : List Nat
deriving DecidableEq, Repr

namespace MsgWriter

/-- `MsgWriter::new` over a zeroed buffer of the given length. -/
def new (bufLen : Nat) : MsgWriter := ⟨bufLen, []⟩

/-- `MsgWriter::written`. -/
def written (w : MsgWriter) : Nat := w.data.length

/-- `MsgWriter::into_bytes`. -/
def intoBytes (w : MsgWriter) : List Nat := w.data

/-- `MsgWriter::write`: fails with `TooLong` when the write would push the
total output past `MESSAGE_LIMIT` — no matter the size of the buffer — and
also when the buffer itself cannot hold the bytes (`write_all` failure). -/
def write (w : MsgWriter) (bytes : List Nat) : Except EncodeError MsgWriter :=
  if w.written + bytes.length > MESSAGE_LIMIT then
    .error .TooLong
  else if w.written + bytes.length > w.bufLen then
    .error .TooLong
  else
    .ok ⟨w.bufLen, w.data ++ bytes⟩

/-- `MsgWriter::write_byte`. -/
def writeByte (w : MsgWriter) (b : Nat) : Except EncodeError MsgWriter :=
  w.write [b]

/-- `MsgWriter::write_u16`. -/
def writeU16 (w : MsgWriter) (n : Nat) : Except EncodeError MsgWriter :=
  w.write (u16be n)

/-- `MsgWriter::write_u32`. -/
def writeU32 (w : MsgWriter) (n : Nat) : Except EncodeError MsgWriter :=
  w.write (u32be n)

end MsgWriter

/-! ## Header codec (message.rs `write_header` / `read_header`) -/

/-- The 12 bytes produced by `MsgWriter::write_header`: id, two flag bytes
assembled bit by bit, and the four counts, all big-endian. -/
def headerBytes (h : FullHeader) : List Nat :=
  let flags0 :=
    ((h.qr.toNat &&& 1) <<< 7) |||
    ((h.op.to_u8 &&& 0b1111) <<< 3) |||
    (flagBit h.authoritative <<< 2) |||
    (flagBit h.truncated <<< 1) |||
    flagBit h.recursion_desired
  let flags1 :=
    (flagBit h.recursion_available <<< 7) |||
    (h.rcode.to_u8 &&& 0b1111)
  u16be h.id ++ [flags0, flags1] ++
    u16be h.qd_count ++ u16be h.an_count ++ u16be h.ns_count ++ u16be h.ar_count

/-- `MsgWriter::write_header`. -/
def MsgWriter.writeHeader (w : MsgWriter) (h : FullHeader) : Except EncodeError MsgWriter :=
  w.write (headerBytes h)

/-- `MsgReader::read_header`. Note: the opcode field is extracted as
`flags0 & 0b01111000`, exactly as the source does — without a right shift. -/
def MsgReader.readHeader (r : MsgReader) : Except DecodeError (FullHeader × MsgReader) :=
  match r.readBytes 12 with
  | .error e => .error e
  | .ok (bs, r') =>
    match bs with
    | [i0, i1, flags0, flags1, q0, q1, a0, a1, n0, n1, r0, r1] =>
      let qr := flags0 &&& 0b10000000
      let op := flags0 &&& 0b01111000
      let aa := flags0 &&& 0b00000100
      let tc := flags0 &&& 0b00000010
      let rd := flags0 &&& 0b00000001
      let ra := flags1 &&& 0b10000000
      let rc := flags1 &&& 0b00001111
      .ok ({ id := u16ofBe i0 i1
             qr := if qr = 0 then .Query else .Response
             op := OpCode.from_u8 op
             authoritative := aa ≠ 0
             truncated := tc ≠ 0
             recursion_desired := rd ≠ 0
             recursion_available := ra ≠ 0
             rcode := RCode.from_u8 rc
             qd_count := u16ofBe q0 q1
             an_count := u16ofBe a0 a1
             ns_count := u16ofBe n0 n1
             ar_count := u16ofBe r0 r1 }, r')
    | _ => .error .ShortMessage

/-- Decode a header from the start of a byte sequence. -/
def readHeaderBytes (data : List Nat) : Except DecodeError FullHeader :=
  match (MsgReader.new data).readHeader with
  | .ok (h, _) => .ok h
  | .error e => .error e

/-- The §8.6 sample header: {id=0xABCD, qr=Query, op=Query, rd=true,
ra=true, rcode=NoError, qd=1, an=ns=ar=0}. -/
def sampleHeader : FullHeader :=
  { id := 0xABCD, qr := .Query, op := .Query
    authoritative := false, truncated := false
    recursion_desired := true, recursion_available := true
    rcode := .NoError
    qd_count := 1, an_count := 0, ns_count := 0, ar_count := 0 }

/-- A header whose opcode is `Status` (wire value 2) and all other fields
zero; exposes the missing `>> 3` in `read_header`. -/
def statusHeader : FullHeader :=
  { id := 0, qr := .Query, op := .Status
    authoritative := false, truncated := false
    recursion_desired := false, recursion_available := false
    rcode := .NoError
    qd_count := 0, an_count := 0, ns_count := 0, ar_count := 0 }

/-! ## Socket error taxonomy (socket.rs) -/

/-- `socket::Error`. `DnsError` carries the response code of the error reply;
`IoError` carries the I/O error, modelled by its message string. -/
inductive Error where
  | DecodeError (e : DecodeError)
  | EncodeError (e : EncodeError)
  | DnsError (rc : RCode)
  | IoError (msg : String)
deriving DecidableEq, Repr

/-! ## Configuration (config.rs) -/

/-- `DnsConfig`. Socket addresses are modelled as abstract identifiers. -/
structure DnsConfig where
  name_servers : List Nat
  search : List String
  n_dots : Nat
  timeout : Nat
  attempts : Nat
  retry_on_socket_error : Bool
  rotate : Bool
  use_inet6 : Bool
deriving DecidableEq, Repr

/-! ## Search-list expansion (resolver.rs `query_names` / `with_suffixes`) -/

/-- `with_suffixes`: `<host>.<s>` for each suffix `s`, then the bare host. -/
def with_suffixes (host : String) (suffixes : List String) : List String :=
  (suffixes.map (fun s => host ++ "." ++ s)) ++ [host]

/-- `name.chars().filter(|&c| c == '.').count()`. -/
def countDots (name : String) : Nat :=
  (name.data.filter (fun c => c = '.')).length

/-- `str::ends_with('.')`. -/
def endsWithDot (s : String) : Bool := s.data.getLast? = some '.'

/-- The `use_search` condition computed by `query_names`:
`!name.ends_with('.') && dots >= n_dots`. -/
def useSearch (name : String) (config : DnsConfig) : Bool :=
  (!endsWithDot name) && (countDots name ≥ config.n_dots)

/-- The candidate loop of `query_names`: try each name in order, first `Ok`
wins, the latest error is retained. -/
def queryNamesGo {T : Type _} (f : String → Except Error T) (err : Option Error) :
    List String → Except Error T
  | [] =>
    match err with
    | some e => .error e
    | none => .error (.IoError "failed to resolve host: name not found")
  | n :: rest =>
    match f n with
    | .ok t => .ok t
    | .error e => queryNamesGo f (some e) rest

/-- `query_names` from resolver.rs. -/
def query_names {T : Type _} (name : String) (config : DnsConfig)
    (f : String → Except Error T) : Except Error T :=
  if useSearch name config then
    queryNamesGo f none (with_suffixes name config.search)
  else
    f name

/-- The sequence of candidate names `query_names` hands to its callback. -/
def queryCandidates (name : String) (config : DnsConfig) : List String :=
  if useSearch name config then with_suffixes name config.search else [name]

/-- The configuration of §8.13: `search=["example.com"]`, `n_dots=1`. -/
def searchConfig : DnsConfig :=
  { name_servers := [0], search := ["example.com"], n_dots := 1
    timeout := 5, attempts := 5, retry_on_socket_error := false
    rotate := false, use_inet6 := false }

/-! ## Address utilities (address.rs) -/

/-- `IpAddr`: a v4 address as four octets or a v6 address as eight
16-bit segments. -/
inductive IpAddr where
  | V4 (a b c d : Nat)
  | V6 (s0 s1 s2 s3 s4 s5 s6 s7 : Nat)
deriving DecidableEq, Repr

/-- `{:x}` formatting: lowercase hexadecimal, no padding. -/
def hexStr (n : Nat) : String := ⟨Nat.toDigits 16 n⟩

/-- `address_name` from address.rs: octets reversed under `in-addr.arpa`
for v4; the source's 32 masked-and-shifted nibble expressions, dot-joined
under `ip6.arpa`, for v6. -/
def address_name : IpAddr → String
  | .V4 a b c d =>
    toString d ++ "." ++ toString c ++ "." ++ toString b ++ "." ++
      toString a ++ ".in-addr.arpa"
  | .V6 s0 s1 s2 s3 s4 s5 s6 s7 =>
    String.intercalate "."
      (([s7 &&& 0xf, (s7 &&& 0x00f0) >>> 4, (s7 &&& 0x0f00) >>> 8, (s7 &&& 0xf000) >>> 12,
         s6 &&& 0xf, (s6 &&& 0x00f0) >>> 4, (s6 &&& 0x0f00) >>> 8, (s6 &&& 0xf000) >>> 12,
         s5 &&& 0xf, (s5 &&& 0x00f0) >>> 4, (s5 &&& 0x0f00) >>> 8, (s5 &&& 0xf000) >>> 12,
         s4 &&& 0xf, (s4 &&& 0x00f0) >>> 4, (s4 &&& 0x0f00) >>> 8, (s4 &&& 0xf000) >>> 12,
         s3 &&& 0xf, (s3 &&& 0x00f0) >>> 4, (s3 &&& 0x0f00) >>> 8, (s3 &&& 0xf000) >>> 12,
         s2 &&& 0xf, (s2 &&& 0x00f0) >>> 4, (s2 &&& 0x0f00) >>> 8, (s2 &&& 0xf000) >>> 12,
         s1 &&& 0xf, (s1 &&& 0x00f0) >>> 4, (s1 &&& 0x0f00) >>> 8, (s1 &&& 0xf000) >>> 12,
         s0 &&& 0xf, (s0 &&& 0x00f0) >>> 4, (s0 &&& 0x0f00) >>> 8, (s0 &&& 0xf000) >>> 12
        ].map hexStr)) ++ ".ip6.arpa"

/-- Spec-side description of the v6 reverse name digits: 32 nibbles,
least-significant nibble first (`(seg / 16^j) % 16` for `j = 0..3`, from
segment 7 down to segment 0). -/
def specV6Nibbles (s0 s1 s2 s3 s4 s5 s6 s7 : Nat) : List Nat :=
  [s7 % 16, s7 / 16 % 16, s7 / 256 % 16, s7 / 4096 % 16,
   s6 % 16, s6 / 16 % 16, s6 / 256 % 16, s6 / 4096 % 16,
   s5 % 16, s5 / 16 % 16, s5 / 256 % 16, s5 / 4096 % 16,
   s4 % 16, s4 / 16 % 16, s4 / 256 % 16, s4 / 4096 % 16,
   s3 % 16, s3 / 16 % 16, s3 / 256 % 16, s3 / 4096 % 16,
   s2 % 16, s2 / 16 % 16, s2 / 256 % 16, s2 / 4096 % 16,
   s1 % 16, s1 / 16 % 16, s1 / 256 % 16, s1 / 4096 % 16,
   s0 % 16, s0 / 16 % 16, s0 / 256 % 16, s0 / 4096 % 16]

/-! ## IDNA bridge (idna.rs) -/

/-- `idna::Error`: a single opaque error kind. -/
inductive IdnaError where
  | Error
deriving DecidableEq, Repr

/-- `Cow<str>`: records whether a conversion returned its input
(`Borrowed`) or produced a new string (`Owned`). -/
inductive Cow where
  | borrowed (s : String)
  | owned (s : String)
deriving DecidableEq, Repr

/-- The string carried by a `Cow`. -/
def Cow.str : Cow → String
  | .borrowed s => s
  | .owned s => s

/-- Whether a `Cow` is the `Borrowed` variant. -/
def Cow.isBorrowed : Cow → Bool
  | .borrowed _ => true
  | .owned _ => false

/-- UTF-8 encoding of a single scalar value. -/
def utf8EncodeChar (c : Char) : List Nat :=
  let v := c.toNat
  if v < 0x80 then [v]
  else if v < 0x800 then
    [0xC0 ||| (v >>> 6), 0x80 ||| (v &&& 0x3F)]
  else if v < 0x10000 then
    [0xE0 ||| (v >>> 12), 0x80 ||| ((v >>> 6) &&& 0x3F), 0x80 ||| (v &&& 0x3F)]
  else
    [0xF0 ||| (v >>> 18), 0x80 ||| ((v >>> 12) &&& 0x3F),
     0x80 ||| ((v >>> 6) &&& 0x3F), 0x80 ||| (v &&& 0x3F)]

/-- `str::bytes()`: the UTF-8 bytes of a string. -/
def utf8Bytes (s : String) : List Nat := (s.data.map utf8EncodeChar).flatten

/-- `str::is_ascii()`: every byte (equivalently, every scalar) ≤ 0x7F. -/
def isAsciiString (s : String) : Bool := s.data.all (fun c => c.toNat ≤ 0x7F)

/-- `u8::to_ascii_lowercase`. -/
def byteToLowercase (b : Nat) : Nat :=
  if 0x41 ≤ b ∧ b ≤ 0x5A then b + 32 else b

/-- `starts_with_ascii_lowercase` from idna.rs: byte-wise comparison of the
lowercased input against an (assumed lowercase ASCII) pattern `pre`. -/
def startsWithAsciiLowercase (s pre : String) : Bool :=
  let sb := utf8Bytes s
  let pb := utf8Bytes pre
  decide (pb.length ≤ sb.length) &&
    (sb.zip pb).all (fun p => byteToLowercase p.1 = p.2)

/-- `u32` overflow bound for the punycode checked arithmetic. -/
def U32_MAX : Nat := 4294967295

/-- `u32::checked_add`. -/
def checkedAdd (a b : Nat) : Option Nat :=
  if a + b > U32_MAX then none else some (a + b)

/-- `u32::checked_mul`. -/
def checkedMul (a b : Nat) : Option Nat :=
  if a * b > U32_MAX then none else some (a * b)

/-- `from_digit` from idna.rs. -/
def from_digit (c : Nat) : Option Nat :=
  if 0x61 ≤ c ∧ c ≤ 0x7A then some (c - 0x61)
  else if 0x41 ≤ c ∧ c ≤ 0x5A then some (c - 0x41)
  else if 0x30 ≤ c ∧ c ≤ 0x39 then some (c - 0x30 + 26)
  else none

/-- `to_digit` from idna.rs (its `unreachable!` branch never fires for the
values produced by `encode`; it is mapped to byte 0). -/
def to_digit (n : Nat) : Nat :=
  if n ≤ 25 then n + 0x61
  else if n ≤ 35 then n - 26 + 0x30
  else 0

/-- The threshold computation shared by `decode` and `encode`:
`t = clamp(k - bias, T_MIN, T_MAX)`. -/
def tValue (k bias : Nat) : Nat :=
  if k ≤ bias then 1
  else if bias + 26 ≤ k then 26
  else k - bias

/-- The `while delta > ((BASE - T_MIN) * T_MAX) / 2` loop of `adapt`,
structurally recursive on a fuel argument. `delta` strictly decreases on
every pass, so calling with `fuel = delta` makes the fuel-exhausted case
coincide with the loop's exit (by then `delta` has reached 0 ≤ 455). -/
def adaptLoop (fuel delta k : Nat) : Nat × Nat :=
  match fuel with
  | 0 => (delta, k)
  | fuel + 1 =>
    if 455 < delta then adaptLoop fuel (delta / 35) (k + 36) else (delta, k)

/-- `adapt` from idna.rs. -/
def adapt (delta numPoints : Nat) (firstTime : Bool) : Nat :=
  let delta := if firstTime then delta / 700 else delta / 2
  let delta := delta + delta / numPoints
  let p := adaptLoop delta delta 0
  p.2 + (36 * p.1) / (p.1 + 38)

/-- The inner digit loop of punycode `decode`: consumes digits until one
falls below the threshold; `none` is the error case (input exhausted,
a non-digit byte, or `u32` overflow). Returns the new `i` and the
remaining bytes. -/
def decodeDigits (bias : Nat) : List Nat → Nat → Nat → Nat → Option (Nat × List Nat)
  | [], _, _, _ => none
  | b :: rest, i, w, k =>
    match from_digit b with
    | none => none
    | some digit =>
      match checkedMul digit w with
      | none => none
      | some dw =>
        match checkedAdd dw i with
        | none => none
        | some i' =>
          let t := tValue k bias
          if digit < t then some (i', rest)
          else
            match checkedMul w (36 - t) with
            | none => none
            | some w' => decodeDigits bias rest i' w' (k + 36)

/-- `char::from_u32`. -/
def charFromU32 (n : Nat) : Option Char :=
  if Nat.isValidChar n then some (Char.ofNat n) else none

/-- The outer loop of punycode `decode`, with explicit fuel (each
iteration consumes at least one byte, so fuel `bytes.length + 1` can
never run out; `none` reports exhausted fuel). -/
def decodeLoop : Nat → List Nat → List Char → Nat → Nat → Nat →
    Option (Except IdnaError (List Char))
  | 0, _, _, _, _, _ => none
  | _ + 1, [], output, _, _, _ => some (.ok output)
  | fuel + 1, b :: bs, output, n, i, bias =>
    let oldi := i
    match decodeDigits bias (b :: bs) i 1 36 with
    | none => some (.error .Error)
    | some (i', rest) =>
      let bias' := adapt (i' - oldi) (output.length + 1) (oldi = 0)
      match checkedAdd n (i' / (output.length + 1)) with
      | none => some (.error .Error)
      | some n' =>
        let i'' := i' % (output.length + 1)
        match charFromU32 n' with
        | none => some (.error .Error)
        | some c => decodeLoop fuel rest (output.insertIdx i'' c) n' (i'' + 1) bias'

/-- Index of the last `b'-'` in a byte sequence (`rposition_elem`). -/
def rpositionDash (bytes : List Nat) : Option Nat :=
  ((bytes.enum.filter (fun p => p.2 = 0x2D)).getLast?).map (fun p => p.1)

/-- Punycode `decode` from idna.rs, over the UTF-8 bytes of the label:
the basic (pre-hyphen) part must be ASCII, then the digit loop inserts the
extended characters. -/
def decodeBytes (bytes : List Nat) : Except IdnaError String :=
  let basic : Except IdnaError (List Char × List Nat) :=
    match rpositionDash bytes with
    | some p =>
      if p = 0 then .error .Error
      else if (bytes.take p).all (fun b => b ≤ 0x7F) then
        .ok (((bytes.take p).map Char.ofNat), bytes.drop (p + 1))
      else .error .Error
    | none => .ok ([], bytes)
  match basic with
  | .error e => .error e
  | .ok (output, rest) =>
    match decodeLoop (rest.length + 1) rest output 0x80 0 72 with
    | some (.ok out) => .ok ⟨out⟩
    | some (.error e) => .error e
    | none => .error .Error

/-- Punycode `decode` on a label given as a string. -/
def decode (s : String) : Except IdnaError String := decodeBytes (utf8Bytes s)

/-- The innermost `loop` of punycode `encode`: emits digits while `q`
remains at or above the threshold. Structurally recursive on fuel; `q`
strictly decreases on every pass (`t ≥ 1`), so calling with
`fuel = q + 1` makes the fuel-exhausted case unreachable. Returns the
extended output and the final `q`. -/
def encodeQLoop (bias : Nat) : Nat → Nat → Nat → List Nat → List Nat × Nat
  | 0, q, _, output => (output, q)
  | fuel + 1, q, k, output =>
    let t := tValue k bias
    if q < t then (output, q)
    else encodeQLoop bias fuel ((q - t) / (36 - t)) (k + 36)
      (output ++ [to_digit (t + (q - t) % (36 - t))])

/-- The `for &c in &chars` pass of punycode `encode`: `none` is the
checked-arithmetic error case. Returns `(delta, bias, h, output)`. -/
def encodeCharPass (n bCount : Nat) :
    List Char → Nat → Nat → Nat → List Nat → Option (Nat × Nat × Nat × List Nat)
  | [], delta, bias, h, output => some (delta, bias, h, output)
  | c :: rest, delta, bias, h, output =>
    let cv := c.toNat
    if cv < n then
      match checkedAdd delta 1 with
      | none => none
      | some d => encodeCharPass n bCount rest d bias h output
    else if cv = n then
      let p := encodeQLoop bias (delta + 1) delta 36 output
      let output := p.1 ++ [to_digit p.2]
      let bias' := adapt delta (h + 1) (h = bCount)
      encodeCharPass n bCount rest 0 bias' (h + 1) output
    else
      encodeCharPass n bCount rest delta bias h output

/-- The `while h < input_len` loop of punycode `encode`, with explicit
fuel (`h` grows by at least one per iteration, so fuel `input_len + 1`
can never run out; `none` reports exhausted fuel). -/
def encodeLoop (chars : List Char) (inputLen bCount : Nat) :
    Nat → Nat → Nat → Nat → Nat → List Nat → Option (Except IdnaError (List Nat))
  | 0, _, _, _, _, _ => none
  | fuel + 1, h, n, delta, bias, output =>
    if h < inputLen then
      match ((chars.map Char.toNat).filter (fun cv => n ≤ cv)).min? with
      | none => some (.error .Error)
      | some mn =>
        match checkedMul (mn - n) (h + 1) with
        | none => some (.error .Error)
        | some md =>
          match checkedAdd md delta with
          | none => some (.error .Error)
          | some delta' =>
            match encodeCharPass mn bCount chars delta' bias h output with
            | none => some (.error .Error)
            | some (delta'', bias', h', output') =>
              encodeLoop chars inputLen bCount fuel h' (mn + 1) (delta'' + 1) bias' output'
    else some (.ok output)

/-- Punycode `encode` from idna.rs. -/
def encode (s : String) : Except IdnaError String :=
  if isAsciiString s then .error .Error
  else
    let bytes := utf8Bytes s
    let output := bytes.filter (fun b => b ≤ 0x7F)
    let bCount := output.length
    let output := if output.length ≠ 0 then output ++ [0x2D] else output
    let chars := s.data
    let inputLen := chars.length
    match encodeLoop chars inputLen bCount (inputLen + 1) bCount 0x80 0 72 output with
    | some (.ok out) => .ok ⟨out.map Char.ofNat⟩
    | some (.error e) => .error e
    | none => .error .Error

/-- `idna::to_ascii`: ASCII labels are returned unchanged (`Borrowed`),
anything else is punycode-encoded behind an `xn--` marker. -/
def to_ascii (s : String) : Except IdnaError Cow :=
  if isAsciiString s then .ok (.borrowed s)
  else
    match encode s with
    | .ok e => .ok (.owned ("xn--" ++ e))
    | .error e => .error e

/-- `idna::to_unicode`: labels not starting (case-insensitively) with
`xn--` are returned unchanged; otherwise the part after the 4-byte marker
is punycode-decoded. -/
def to_unicode (s : String) : Except IdnaError Cow :=
  if !startsWithAsciiLowercase s "xn--" then .ok (.borrowed s)
  else
    match decodeBytes ((utf8Bytes s).drop 4) with
    | .ok u => .ok (.owned u)
    | .error e => .error e

/-- `str::split('.')` on the underlying character list. -/
def splitChar (sep : Char) : List Char → List (List Char)
  | [] => [[]]
  | c :: cs =>
    if c = sep then [] :: splitChar sep cs
    else
      match splitChar sep cs with
      | [] => [[c]]
      | l :: ls => (c :: l) :: ls

/-- `s.split('.')` as a list of strings. -/
def splitDot (s : String) : List String := (splitChar '.' s.data).map String.mk

/-- `connect_segments`: join with `.` separators. -/
def joinDot : List String → String
  | [] => ""
  | [s] => s
  | s :: rest => s ++ "." ++ joinDot rest

/-- `host_to_ascii` from idna.rs: convert each dot-separated label, and
return the input itself when every conversion was borrowed. -/
def host_to_ascii (s : String) : Except IdnaError Cow :=
  match (splitDot s).mapM to_ascii with
  | .error e => .error e
  | .ok segments =>
    if segments.all Cow.isBorrowed then .ok (.borrowed s)
    else .ok (.owned (joinDot (segments.map Cow.str)))

/-- `host_to_unicode` from idna.rs. -/
def host_to_unicode (s : String) : Except IdnaError Cow :=
  match (splitDot s).mapM to_unicode with
  | .error e => .error e
  | .ok segments =>
    if segments.all Cow.isBorrowed then .ok (.borrowed s)
    else .ok (.owned (joinDot (segments.map Cow.str)))

/-- `host_to_ascii` at the value level. -/
def hostToAsciiStr (s : String) : Except IdnaError String :=
  match host_to_ascii s with
  | .ok c => .ok c.str
  | .error e => .error e

/-- `host_to_unicode` at the value level. -/
def hostToUnicodeStr (s : String) : Except IdnaError String :=
  match host_to_unicode s with
  | .ok c => .ok c.str
  | .error e => .error e

/-! ## Name validity (message.rs `is_valid_name` / `is_valid_segment`) -/

/-- `str::len()`: length in UTF-8 bytes. -/
def utf8Len (s : String) : Nat := (utf8Bytes s).length

/-- `str::starts_with('.')`. -/
def startsWithDotB (s : String) : Bool := s.data.head? = some '.'

/-- `str::starts_with('-')`. -/
def startsWithDashB (s : String) : Bool := s.data.head? = some '-'

/-- `str::ends_with('-')`. -/
def endsWithDashB (s : String) : Bool := s.data.getLast? = some '-'

/-- Two consecutive dots in a character list. Because the pattern `".."`
is two identical characters, `str::contains("..")` holds exactly when two
adjacent characters are both `'.'`. -/
def hasDotDot : List Char → Bool
  | [] => false
  | [_] => false
  | a :: b :: rest => (a = '.' && b = '.') || hasDotDot (b :: rest)

/-- `name.contains("..")`. -/
def containsDotDot (s : String) : Bool := hasDotDot s.data

/-- `char::is_whitespace`: the Unicode `White_Space` property. -/
def isRustWhitespace (c : Char) : Bool :=
  c.toNat ∈ [0x09, 0x0A, 0x0B, 0x0C, 0x0D, 0x20, 0x85, 0xA0, 0x1680,
    0x2000, 0x2001, 0x2002, 0x2003, 0x2004, 0x2005, 0x2006, 0x2007,
    0x2008, 0x2009, 0x200A, 0x2028, 0x2029, 0x202F, 0x205F, 0x3000]

/-- `char::is_control`: the Unicode `Cc` category. -/
def isRustControl (c : Char) : Bool :=
  c.toNat ≤ 0x1F || (0x7F ≤ c.toNat && c.toNat ≤ 0x9F)

/-- `is_valid_segment` from message.rs. -/
def is_valid_segment (s : String) : Bool :=
  !(startsWithDashB s || endsWithDashB s) &&
    s.data.all (fun c => !(isRustWhitespace c || isRustControl c))

/-- `is_valid_name` from message.rs. -/
def is_valid_name (name : String) : Bool :=
  let len := utf8Len name
  decide (len ≠ 0) && (decide (len = 1) || !startsWithDotB name) &&
    !containsDotDot name

/-! ## Name encoding (message.rs `write_name`) -/

/-- The `for seg in name.split('.')` loop of `write_name`: IDNA-encode
each segment, validate it, track the running total against `NAME_LIMIT`,
and emit the length octet followed by the segment bytes. Returns the
writer and the accumulated `total_len`. -/
def writeNameLoop (w : MsgWriter) (totalLen : Nat) :
    List String → Except EncodeError (MsgWriter × Nat)
  | [] => .ok (w, totalLen)
  | seg :: rest =>
    match to_ascii seg with
    | .error _ => .error .InvalidName
    | .ok cow =>
      let seg := cow.str
      if !is_valid_segment seg then .error .InvalidName
      else if LABEL_LIMIT < utf8Len seg then .error .InvalidName
      else
        let totalLen := totalLen + 1 + utf8Len seg
        if NAME_LIMIT < totalLen then .error .InvalidName
        else
          match w.writeByte (utf8Len seg % 256) with
          | .error e => .error e
          | .ok w =>
            match w.write (utf8Bytes seg) with
            | .error e => .error e
            | .ok w => writeNameLoop w totalLen rest

/-- `MsgWriter::write_name`. -/
def write_name (w : MsgWriter) (name : String) : Except EncodeError MsgWriter :=
  if !is_valid_name name then .error .InvalidName
  else if name = "." then w.writeByte 0
  else
    match writeNameLoop w 0 (splitDot name) with
    | .error e => .error e
    | .ok (w, totalLen) =>
      if !endsWithDot name then
        if NAME_LIMIT < totalLen + 1 then .error .InvalidName
        else w.writeByte 0
      else .ok w

/-! ## Name decoding (message.rs `read_name` / `read_segment`) -/

/-- `read_segment`: read `len` bytes at `pos`, require ASCII, validate the
segment, and IDNA-decode it. Returns the decoded label and the new
position. -/
def readSegment (data : List Nat) (pos len : Nat) :
    Except DecodeError (String × Nat) :=
  if pos + len ≤ data.length then
    let seg := (data.drop pos).take len
    if seg.all (fun b => b ≤ 0x7F) then
      let s : String := ⟨seg.map Char.ofNat⟩
      if is_valid_segment s then
        match to_unicode s with
        | .ok cow => .ok (cow.str, pos + len)
        | .error _ => .error .InvalidName
      else .error .InvalidName
    else .error .InvalidName
  else .error .ShortMessage

/-- The loop of `read_name`, with explicit fuel: `none` means the loop ran
longer than the given fuel (the source loop has no such bound — a run that
is `none` for every fuel is an infinite loop in the source). `startPos` is
the position at which the name began, `restore` the saved resume position
of the first compression pointer, `res` the accumulated name and
`totalRead` the accumulated encoded length. On success, returns the
decoded name and the final cursor position. -/
def readNameLoop (data : List Nat) (startPos : Nat) :
    Nat → Nat → Option Nat → String → Nat →
    Option (Except DecodeError (String × Nat))
  | 0, _, _, _, _ => none
  | fuel + 1, pos, restore, res, totalRead =>
    match data.get? pos with
    | none => some (.error .ShortMessage)
    | some len =>
      let pos := pos + 1
      if len = 0 then
        if NAME_LIMIT < totalRead + 1 then some (.error .InvalidName)
        else
          let res := if res = "" then "." else res
          let finalPos := match restore with | some p => p | none => pos
          some (.ok (res, finalPos))
      else if len &&& 0b11000000 = 0b11000000 then
        match data.get? pos with
        | none => some (.error .ShortMessage)
        | some lo =>
          let pos := pos + 1
          let offset := ((len &&& 0b00111111) <<< 8) ||| lo
          if startPos ≤ offset then some (.error .InvalidName)
          else
            let restore := if restore.isNone then some pos else restore
            readNameLoop data startPos fuel offset restore res totalRead
      else if len &&& 0b11000000 ≠ 0 then some (.error .InvalidMessage)
      else if NAME_LIMIT < totalRead + 1 + len then some (.error .InvalidName)
      else
        match readSegment data pos len with
        | .error e => some (.error e)
        | .ok (seg, pos') =>
          readNameLoop data startPos fuel pos' restore (res ++ seg ++ ".")
            (totalRead + 1 + len)

/-- `MsgReader::read_name`, with explicit fuel for the decoding loop. -/
def read_name (r : MsgReader) (fuel : Nat) :
    Option (Except DecodeError (String × MsgReader)) :=
  match readNameLoop r.data r.pos fuel r.pos none "" 0 with
  | none => none
  | some (.error e) => some (.error e)
  | some (.ok (s, pos)) => some (.ok (s, ⟨r.data, pos⟩))

/-- The label portion of a name's wire encoding: a length octet followed
by the label bytes, for each label in order. -/
def nameBody (labels : List String) : List Nat :=
  (labels.map (fun l => utf8Len l :: utf8Bytes l)).flatten

/-- The wire encoding of a name given as its labels: the label portion,
then the zero terminator. -/
def encNameBytes (labels : List String) : List Nat :=
  nameBody labels ++ [0]

/-- The encoded length of a label list: one length octet plus the label
bytes, per label. -/
def encLen (labels : List String) : Nat :=
  (labels.map (fun l => 1 + utf8Len l)).sum

/-- The labels re-joined as a decoded name: each label followed by `.`. -/
def dotsJoin : List String → String
  | [] => ""
  | l :: rest => l ++ "." ++ dotsJoin rest

/-- §3 name validity, following the spec's words: non-empty; no `..`; no
leading dot except the single-character root `.`; each label after IDNA
encoding is 1–63 bytes; total encoded length (length octets + label
bytes + terminating zero) at most 255. -/
def spec3Valid (name : String) : Bool :=
  if name = "." then true
  else
    let labels := if endsWithDot name then (splitDot name).dropLast else splitDot name
    let asciiLen : String → Nat := fun l =>
      match to_ascii l with
      | .ok c => utf8Len c.str
      | .error _ => 0
    decide (name ≠ "") && !containsDotDot name && !startsWithDotB name &&
      labels.all (fun l =>
        match to_ascii l with
        | .ok c => decide (1 ≤ utf8Len c.str ∧ utf8Len c.str ≤ 63)
        | .error _ => false) &&
      decide ((labels.map (fun l => 1 + asciiLen l)).sum + 1 ≤ 255)

/-! ## Records (record.rs) -/

/-- `RecordType` with its numeric mapping. -/
inductive RecordType where
  | A
  | AAAA
  | CName
  | Mx
  | Ns
  | Ptr
  | Soa
  | Srv
  | Txt
  | Other (n : Nat)
deriving DecidableEq, Repr

/-- `RecordType::from_u16`. -/
def RecordType.from_u16 (u : Nat) : RecordType :=
  match u with
  | 1 => .A
  | 28 => .AAAA
  | 5 => .CName
  | 15 => .Mx
  | 2 => .Ns
  | 12 => .Ptr
  | 6 => .Soa
  | 33 => .Srv
  | 16 => .Txt
  | n => .Other n

/-- `RecordType::to_u16`. -/
def RecordType.to_u16 : RecordType → Nat
  | .A => 1
  | .AAAA => 28
  | .CName => 5
  | .Mx => 15
  | .Ns => 2
  | .Ptr => 12
  | .Soa => 6
  | .Srv => 33
  | .Txt => 16
  | .Other n => n

/-- `Class` with its numeric mapping. -/
inductive Class where
  | Internet
  | Any
  | Other (n : Nat)
deriving DecidableEq, Repr

/-- `Class::from_u16`. -/
def Class.from_u16 (u : Nat) : Class :=
  match u with
  | 1 => .Internet
  | 255 => .Any
  | n => .Other n

/-- `Class::to_u16`. -/
def Class.to_u16 : Class → Nat
  | .Internet => 1
  | .Any => 255
  | .Other n => n

/-! ## Messages (message.rs) -/

/-- `Header`: the caller-facing header (counts are derived at encode time
and consumed at decode time). -/
structure Header where
  id : Nat
  qr : Qr
  op : OpCode
  authoritative : Bool
  truncated : Bool
  recursion_desired : Bool
  recursion_available : Bool
  rcode : RCode
deriving DecidableEq, Repr

/-- `Question`. -/
structure Question where
  name : String
  q_type : RecordType
  q_class : Class
deriving DecidableEq, Repr

/-- `Resource`. -/
structure Resource where
  name : String
  r_type : RecordType
  r_class : Class
  ttl : Nat
  data : List Nat
deriving DecidableEq, Repr

/-- `Message`. -/
structure Message where
  header : Header
  question : List Question
  answer : List Resource
  authority : List Resource
  additional : List Resource
deriving DecidableEq, Repr

/-- `to_u16` from message.rs: counts over 65535 fail with `TooLong`. -/
def to_u16 (n : Nat) : Except EncodeError Nat :=
  if 65535 < n then .error .TooLong else .ok n

/-- `MsgWriter::write_question`: the name, then one 4-byte write holding
the type and class. -/
def writeQuestion (w : MsgWriter) (q : Question) : Except EncodeError MsgWriter :=
  match write_name w q.name with
  | .error e => .error e
  | .ok w => w.write (u16be q.q_type.to_u16 ++ u16be q.q_class.to_u16)

/-- `MsgWriter::write_resource`: the name, then one 10-byte write holding
type, class, ttl and rdata length (`to_u16`-checked first), then the
rdata bytes. -/
def writeResource (w : MsgWriter) (r : Resource) : Except EncodeError MsgWriter :=
  match write_name w r.name with
  | .error e => .error e
  | .ok w =>
    match to_u16 r.data.length with
    | .error e => .error e
    | .ok len =>
      match w.write (u16be r.r_type.to_u16 ++ u16be r.r_class.to_u16 ++
          u32be r.ttl ++ u16be len) with
      | .error e => .error e
      | .ok w => w.write r.data

/-- The question-section loop of `Message::encode`. -/
def writeQuestions (w : MsgWriter) : List Question → Except EncodeError MsgWriter
  | [] => .ok w
  | q :: rest =>
    match writeQuestion w q with
    | .error e => .error e
    | .ok w => writeQuestions w rest

/-- A resource-section loop of `Message::encode`. -/
def writeResources (w : MsgWriter) : List Resource → Except EncodeError MsgWriter
  | [] => .ok w
  | r :: rest =>
    match writeResource w r with
    | .error e => .error e
    | .ok w => writeResources w rest

/-- `Message::encode` into a buffer of length `bufLen`: derive the counts
(`TooLong` above 65535), write the header, then the four sections in
order, returning the written prefix. -/
def Message.encode (m : Message) (bufLen : Nat) : Except EncodeError (List Nat) :=
  let w := MsgWriter.new bufLen
  match to_u16 m.question.length with
  | .error e => .error e
  | .ok qd =>
    match to_u16 m.answer.length with
    | .error e => .error e
    | .ok an =>
      match to_u16 m.authority.length with
      | .error e => .error e
      | .ok ns =>
        match to_u16 m.additional.length with
        | .error e => .error e
        | .ok ar =>
          let full : FullHeader :=
            { id := m.header.id, qr := m.header.qr, op := m.header.op
              authoritative := m.header.authoritative
              truncated := m.header.truncated
              recursion_desired := m.header.recursion_desired
              recursion_available := m.header.recursion_available
              rcode := m.header.rcode
              qd_count := qd, an_count := an, ns_count := ns, ar_count := ar }
          match w.writeHeader full with
          | .error e => .error e
          | .ok w =>
            match writeQuestions w m.question with
            | .error e => .error e
            | .ok w =>
              match writeResources w m.answer with
              | .error e => .error e
              | .ok w =>
                match writeResources w m.authority with
                | .error e => .error e
                | .ok w =>
                  match writeResources w m.additional with
                  | .error e => .error e
                  | .ok w => .ok w.intoBytes

/-- `Message::into_records`: answers, then authority, then additional. -/
def Message.intoRecords (m : Message) : List Resource :=
  m.answer ++ m.authority ++ m.additional

/-! ## Typed rdata decoding (record.rs `A::decode` / `AAAA::decode`) -/

/-- `Resource::read_rdata::<A>`: four octets, fully consumed. -/
def readRdataA (rdata : List Nat) : Except DecodeError IpAddr :=
  match (MsgReader.new rdata).readBytes 4 with
  | .error e => .error e
  | .ok ([b0, b1, b2, b3], r) =>
    match r.finish with
    | .ok _ => .ok (.V4 b0 b1 b2 b3)
    | .error e => .error e
  | .ok (_, _) => .error .ShortMessage

/-- `Resource::read_rdata::<AAAA>`: sixteen bytes as eight big-endian
segments, fully consumed. -/
def readRdataAAAA (rdata : List Nat) : Except DecodeError IpAddr :=
  match (MsgReader.new rdata).readBytes 16 with
  | .error e => .error e
  | .ok ([b0, b1, b2, b3, b4, b5, b6, b7, b8, b9, b10, b11, b12, b13, b14, b15], r) =>
    match r.finish with
    | .ok _ => .ok (.V6 (u16ofBe b0 b1) (u16ofBe b2 b3) (u16ofBe b4 b5) (u16ofBe b6 b7)
        (u16ofBe b8 b9) (u16ofBe b10 b11) (u16ofBe b12 b13) (u16ofBe b14 b15))
    | .error e => .error e
  | .ok (_, _) => .error .ShortMessage

/-- `Ipv4Addr::to_ipv6_mapped` on a `V4` value (identity on `V6`). -/
def toIpv6Mapped : IpAddr → IpAddr
  | .V4 a b c d => .V6 0 0 0 0 0 0xFFFF ((a <<< 8) ||| b) ((c <<< 8) ||| d)
  | .V6 s0 s1 s2 s3 s4 s5 s6 s7 => .V6 s0 s1 s2 s3 s4 s5 s6 s7

/-! ## Dual-stack resolution (resolver.rs `resolve_host` internals) -/

/-- The record loop of `resolve_host_v4`: for each `A` resource, decode
its rdata and collect the address; a decode error stops the loop, keeping
the addresses collected so far (they were pushed through the closure). -/
def collectA : List Resource → List IpAddr → List IpAddr × Option Error
  | [], acc => (acc, none)
  | rr :: rest, acc =>
    if rr.r_type = .A then
      match readRdataA rr.data with
      | .ok ip => collectA rest (acc ++ [ip])
      | .error e => (acc, some (.DecodeError e))
    else collectA rest acc

/-- The record loop of `resolve_host_v6`, mapping each address through
`f` (`IpAddr::V6` directly, or `to_ipv6_mapped` under `use_inet6`). -/
def collectAAAA (f : IpAddr → IpAddr) :
    List Resource → List IpAddr → List IpAddr × Option Error
  | [], acc => (acc, none)
  | rr :: rest, acc =>
    if rr.r_type = .AAAA then
      match readRdataAAAA rr.data with
      | .ok ip => collectAAAA f rest (acc ++ [ip])
      | .error e => (acc, some (.DecodeError e))
    else collectAAAA f rest acc

/-- `resolve_host_v4` for one candidate name, abstracted over the result
of `send_message`: the addresses pushed and the error, if any. -/
def resolve_host_v4 (send : Except Error Message) : List IpAddr × Option Error :=
  match send with
  | .error e => ([], some e)
  | .ok msg => collectA msg.intoRecords []

/-- `resolve_host_v6` for one candidate name (`f` maps each decoded
segment tuple into the pushed `IpAddr`). -/
def resolve_host_v6 (f : IpAddr → IpAddr) (send : Except Error Message) :
    List IpAddr × Option Error :=
  match send with
  | .error e => ([], some e)
  | .ok msg => collectAAAA f msg.intoRecords []

/-- The per-candidate closure of `resolve_host`, abstracted over the two
`send_message` results. With `use_inet6` false: collect A addresses, then
append AAAA addresses, and keep the error of the first failing query
(`err.or(...)`). With `use_inet6` true: collect AAAA first and only
query A (v4-mapped) when nothing was found. Empty results yield the
retained error, or a not-found error when both queries succeeded. -/
def resolveHostCandidate (useInet6 : Bool)
    (v4send v6send : Except Error Message) : Except Error (List IpAddr) :=
  let p :=
    if useInet6 then
      let p6 := resolve_host_v6 (fun ip => ip) v6send
      if p6.1.isEmpty then
        let p4 := resolve_host_v4 v4send
        (p6.1 ++ (p4.1.map toIpv6Mapped), p6.2.or p4.2)
      else p6
    else
      let p4 := resolve_host_v4 v4send
      let p6 := resolve_host_v6 (fun ip => ip) v6send
      (p4.1 ++ p6.1, p4.2.or p6.2)
  if !p.1.isEmpty then .ok p.1
  else
    match p.2 with
    | some e => .error e
    | none => .error (.IoError "failed to resolve host: name not found")

/-- Spec-side extraction: the `V4` address held by a 4-byte rdata. -/
def specArdata (rr : Resource) : IpAddr :=
  .V4 (rr.data.getD 0 0) (rr.data.getD 1 0) (rr.data.getD 2 0) (rr.data.getD 3 0)

/-! ## Request/response protocol (resolver.rs `send_message`) -/

/-- One result of `DnsSocket::recv_message` as seen by the receive loop of
`send_message`. The read-deadline bookkeeping of the source (measuring
elapsed time and shrinking the remaining timeout) only determines *when*
the transport reports a timeout; the event script represents the
transport's answers directly. -/
inductive RecvEvent where
  /-- `Ok(None)`: a datagram from a non-matching endpoint, discarded. -/
  | ok_none
  /-- `Ok(Some(msg))`: a decoded datagram from the expected endpoint. -/
  | ok_some (m : Message)
  /-- `Err(e)` with `e.is_timeout()`: the read deadline expired. -/
  | timeout (e : Error)
  /-- `Err(e)` without `is_timeout()`: any other transport error. -/
  | err (e : Error)
deriving DecidableEq, Repr

/-- Outcome of one pass of the receive loop. -/
inductive RecvOutcome where
  /-- The loop returned: a reply, a `DnsServer` error, or an I/O error. -/
  | answered (r : Except Error Message)
  /-- The read deadline expired: move to the next attempt. -/
  | timedOut (e : Error)
  /-- The script ran out: the source would block on the socket. -/
  | stuck
deriving DecidableEq, Repr

/-- The inner receive loop of `send_message`: discard irrelevant
datagrams (wrong endpoint, wrong id, or not a response), fail on an error
response code (`msg.get_error()`), return the first matching reply,
propagate non-timeout errors, and hand timeouts to the retry loop. -/
def recvLoop (outId : Nat) : List RecvEvent → RecvOutcome × List RecvEvent
  | [] => (.stuck, [])
  | ev :: rest =>
    match ev with
    | .ok_none => recvLoop outId rest
    | .ok_some m =>
      if m.header.id = outId ∧ m.header.qr = .Response then
        if m.header.rcode = .NoError then (.answered (.ok m), rest)
        else (.answered (.error (.DnsError m.header.rcode)), rest)
      else recvLoop outId rest
    | .timeout e => (.timedOut e, rest)
    | .err e => (.answered (.error e), rest)

/-- Result of `send_message`. `panicNone` is the `last_err.unwrap()` panic
reached when the attempts loop runs zero times; `incomplete` marks a
script too short to drive the source to a result (the source would still
be blocked on the socket). -/
inductive SendOutcome where
  | ok (m : Message)
  | err (e : Error)
  | panicNone
  | incomplete
deriving DecidableEq, Repr

/-- The `for retries in 0..attempts` loop of `send_message`. `remaining`
counts the attempts still to run (`attempts - retries`), `cursor` is the
`next_ns` rotation cell, `sends` accumulates the name servers targeted by
each send, in order. Sending itself is assumed to succeed; the claims
under study only concern server selection and the retry policy. -/
def sendMessageGo (cfg : DnsConfig) (outId : Nat) :
    Nat → Nat → Nat → List RecvEvent → Option Error → List Nat →
    SendOutcome × List Nat × Nat
  | 0, _, cursor, _, lastErr, sends =>
    (match lastErr with
     | some e => .err e
     | none => .panicNone, sends, cursor)
  | remaining + 1, retries, cursor, script, lastErr, sends =>
    let k := cfg.name_servers.length
    let selected :=
      if cfg.rotate then (cfg.name_servers.getD cursor 0, (cursor + 1) % k)
      else (cfg.name_servers.getD (retries % k) 0, cursor)
    let sends := sends ++ [selected.1]
    match recvLoop outId script with
    | (.answered r, _) =>
      ((match r with | .ok m => .ok m | .error e => .err e), sends, selected.2)
    | (.timedOut e, rest) =>
      sendMessageGo cfg outId remaining (retries + 1) selected.2 rest (some e) sends
    | (.stuck, _) => (.incomplete, sends, selected.2)

/-- `DnsResolver::send_message`, driven by a script of receive events,
starting from rotation cursor `cursor`. Returns the outcome, the targeted
name servers in send order, and the final cursor. -/
def send_message (cfg : DnsConfig) (outId : Nat) (script : List RecvEvent)
    (cursor : Nat) : SendOutcome × List Nat × Nat :=
  sendMessageGo cfg outId cfg.attempts 0 cursor script none []

/-- An all-timeout script: for each attempt, a pair `(m, e)` produces `m`
irrelevant datagrams followed by a read timeout carrying error `e`. -/
def timeoutScript : List (Nat × Error) → List RecvEvent
  | [] => []
  | (m, e) :: rest => List.replicate m .ok_none ++ .timeout e :: timeoutScript rest

/-- The `Message::encode` sample of the source's `test_message` test. -/
def sampleMessage : Message :=
  { header :=
      { id := 0xabcd, qr := .Query, op := .Query, authoritative := false,
        truncated := false, recursion_desired := true,
        recursion_available := true, rcode := .NoError },
    question := [⟨"foo.bar.com.", .A, .Internet⟩],
    answer := [], authority := [], additional := [] }

/-- The wire bytes of `sampleMessage`, as asserted by `test_message`. -/
def sampleEncoded : List Nat :=
  [0xab, 0xcd, 0b00000001, 0b10000000, 0, 1, 0, 0, 0, 0, 0, 0,
   3, 102, 111, 111, 3, 98, 97, 114, 3, 99, 111, 109, 0, 0, 1, 0, 1]

/-- A rotating configuration with name servers `[A, B, C] = [10, 20, 30]`
and three attempts. -/
def rotateConfig : DnsConfig :=
  { name_servers := [10, 20, 30], search := [], n_dots := 1, timeout := 5,
    attempts := 3, retry_on_socket_error := false, rotate := true,
    use_inet6 := false }

/-- A reply carrying one `A` answer with rdata `[1,2,3,4]`. -/
def aAnswerMessage : Message :=
  { header := ⟨0, .Response, .Query, false, false, false, false, .NoError⟩,
    question := [],
    answer := [⟨"host.example.", .A, .Internet, 60, [1, 2, 3, 4]⟩],
    authority := [], additional := [] }

/-- A reply carrying no records at all. -/
def emptyMessage : Message :=
  { header := ⟨0, .Response, .Query, false, false, false, false, .NoError⟩,
    question := [], answer := [], authority := [], additional := [] }

/-- Well-formedness of one label as assumed by the amended round-trip
claim: nonempty, ASCII, passing the code's segment check, not marked as
punycode, at most 63 characters, containing no dot. -/
def goodLabel (l : String) : Bool :=
  decide (l ≠ "") && isAsciiString l && is_valid_segment l &&
    !startsWithAsciiLowercase l "xn--" && decide (l.data.length ≤ 63) &&
    decide ('.' ∉ l.data)

/-- `to_ascii` at the value level: the string carried by the returned
`Cow`. -/
def toAsciiStr (s : String) : Except IdnaError String :=
  match to_ascii s with
  | .ok c => .ok c.str
  | .error e => .error e

/-- `to_unicode` at the value level: the string carried by the returned
`Cow`. -/
def toUnicodeStr (s : String) : Except IdnaError String :=
  match to_unicode s with
  | .ok c => .ok c.str
  | .error e => .error e

/-- Well-formedness of one label of a name, paired with its wire form, as
assumed by the amended round-trip claim: `l` is the label as it appears in
the name (possibly non-ASCII), `a` the form actually written to the wire.
The conditions are exactly the checks the code itself performs on the two
paths: `l` is nonempty and dot-free (so it is one label of the name);
`idna::to_ascii` converts it to `a` (for ASCII labels `a = l`); `a` is
nonempty ASCII (always true of `to_ascii` output), passes
`is_valid_segment`, and fits in 63 bytes (`write_name`'s checks); and
`idna::to_unicode` maps `a` back to `l` (`read_segment`'s conversion) —
automatic for ASCII labels not beginning case-insensitively with `xn--`,
and the punycode inverse property for encoded IDN labels. -/
def goodPair (l a : String) : Bool :=
  decide (l ≠ "") && decide ('.' ∉ l.data) &&
    decide (toAsciiStr l = .ok a) && decide (a ≠ "") &&
    isAsciiString a && is_valid_segment a &&
    decide (a.data.length ≤ 63) && decide (toUnicodeStr a = .ok l)

/-! # Theorems -/

/-! ## Bitwise bridges for the v6 nibble expressions -/

theorem and_mask_shift (s k : Nat) : (s &&& (15 <<< k)) >>> k = (s >>> k) % 16 := by
  apply Nat.eq_of_testBit_eq
  intro i
  rw [Nat.testBit_shiftRight, Nat.testBit_and, Nat.testBit_shiftLeft,
    show (16 : Nat) = 2 ^ 4 from rfl, Nat.testBit_mod_two_pow, Nat.testBit_shiftRight]
  have h15 : (15 : Nat) = 2 ^ 4 - 1 := by norm_num
  rw [h15, Nat.testBit_two_pow_sub_one]
  have hle : k ≤ k + i := Nat.le_add_right k i
  simp [hle, Nat.add_sub_cancel_left, Bool.and_comm]

theorem nib0 (s : Nat) : s &&& 0xf = s % 16 := by
  have := and_mask_shift s 0
  simpa using this

theorem nib1 (s : Nat) : (s &&& 0xf0) >>> 4 = s / 16 % 16 := by
  have := and_mask_shift s 4
  rw [show (15 <<< 4 : Nat) = 0xf0 from rfl] at this
  rw [this, Nat.shiftRight_eq_div_pow]

theorem nib2 (s : Nat) : (s &&& 0xf00) >>> 8 = s / 256 % 16 := by
  have := and_mask_shift s 8
  rw [show (15 <<< 8 : Nat) = 0xf00 from rfl] at this
  rw [this, Nat.shiftRight_eq_div_pow]

theorem nib3 (s : Nat) : (s &&& 0xf000) >>> 12 = s / 4096 % 16 := by
  have := and_mask_shift s 12
  rw [show (15 <<< 12 : Nat) = 0xf000 from rfl] at this
  rw [this, Nat.shiftRight_eq_div_pow]

/-! ## Claim C1 -/

/-- C1: the spec says a name with ≥ `n_dots` dots (or a trailing dot) is
queried as-is, and that the search list is applied otherwise. The code
computes `use_search = !ends_with('.') && dots >= n_dots`, inverting the
`n_dots` comparison relative to the spec and to `config.rs`'s own
documentation of `n_dots`. At the spec's own vectors
(`search=["example.com"]`, `n_dots=1`): input `"foo"` is queried bare as
the only candidate (spec expects `["foo.example.com","foo"]`), while
`"foo.bar"` receives the search-list expansion (spec expects only
`["foo.bar"]`). Input `"foo."` agrees. -/
theorem claim_C1_search_expansion_inverted :
    (∀ (T : Type) (f : String → Except Error T),
      query_names "foo" searchConfig f = f "foo")
    ∧ queryCandidates "foo" searchConfig = ["foo"]
    ∧ queryCandidates "foo.bar" searchConfig = ["foo.bar.example.com", "foo.bar"]
    ∧ queryCandidates "foo." searchConfig = ["foo."] := by
  refine ⟨fun T f => ?_, by decide, by decide, by decide⟩
  unfold query_names
  rw [show useSearch "foo" searchConfig = false from by decide]
  simp

/-! ## Claim C2 -/

/-- C2: the §8.6 sample header encodes to `AB CD 01 80 00 01 00 ... 00`
and decodes back to itself, but the claimed round-trip fails for any
nonzero opcode: `read_header` extracts the opcode field as
`flags0 & 0b01111000` without the `>> 3` shift, so a header with
`op = Status` (wire value 2) decodes to `op = Other(16)`. -/
theorem claim_C2_header_roundtrip_opcode_bug :
    headerBytes sampleHeader = [0xAB, 0xCD, 0x01, 0x80, 0x00, 0x01, 0, 0, 0, 0, 0, 0]
    ∧ readHeaderBytes (headerBytes sampleHeader) = .ok sampleHeader
    ∧ readHeaderBytes (headerBytes statusHeader) = .ok { statusHeader with op := .Other 16 }
    ∧ OpCode.Other 16 ≠ OpCode.Status :=
  ⟨by decide, by decide, by decide, by decide⟩

/-! ## Claim C8 -/

/-- C8: `address_name` reverses the octets under `in-addr.arpa` for v4 and
emits the 32 hex nibbles least-significant first under `ip6.arpa` for v6,
with no trailing dot; including the two concrete sample vectors, and the
fact that each emitted nibble is the single lowercase hex digit of a
value below 16. -/
theorem claim_C8_address_name :
    address_name (.V4 192 0 2 5) = "5.2.0.192.in-addr.arpa"
    ∧ address_name (.V6 0x2001 0x0db8 0 0 0 0 0x0567 0x89ab) =
        "b.a.9.8.7.6.5.0.0.0.0.0.0.0.0.0.0.0.0.0.0.0.0.0.8.b.d.0.1.0.0.2.ip6.arpa"
    ∧ (∀ a b c d : Nat,
        address_name (.V4 a b c d) =
          toString d ++ "." ++ toString c ++ "." ++ toString b ++ "." ++
            toString a ++ ".in-addr.arpa")
    ∧ (∀ s0 s1 s2 s3 s4 s5 s6 s7 : Nat,
        address_name (.V6 s0 s1 s2 s3 s4 s5 s6 s7) =
          String.intercalate "."
            ((specV6Nibbles s0 s1 s2 s3 s4 s5 s6 s7).map hexStr) ++ ".ip6.arpa")
    ∧ (∀ n : Nat, hexStr (n % 16) = String.singleton (Nat.digitChar (n % 16))) := by
  refine ⟨by decide, by decide, fun a b c d => rfl, fun s0 s1 s2 s3 s4 s5 s6 s7 => ?_, fun n => ?_⟩
  · simp only [address_name, specV6Nibbles, nib0, nib1, nib2, nib3]
  · have h : ∀ m, m < 16 → hexStr m = String.singleton (Nat.digitChar m) := by decide
    exact h _ (Nat.mod_lt _ (by norm_num))

theorem mem_splitChar {sep : Char} : ∀ {l seg : List Char}, seg ∈ splitChar sep l →
    ∀ {c : Char}, c ∈ seg → c ∈ l := by
  intro l
  induction l with
  | nil =>
    intro seg hseg c hc
    simp [splitChar] at hseg
    subst hseg
    simp at hc
  | cons a as ih =>
    intro seg hseg c hc
    by_cases ha : a = sep
    · rw [splitChar, if_pos ha] at hseg
      rcases List.mem_cons.mp hseg with h | h
      · subst h; simp at hc
      · exact List.mem_cons_of_mem _ (ih h hc)
    · rw [splitChar, if_neg ha] at hseg
      rcases hrec : splitChar sep as with _ | ⟨l₀, ls⟩
      · rw [hrec] at hseg
        rcases List.mem_cons.mp hseg with h | h
        · subst h
          rcases List.mem_cons.mp hc with h | h
          · exact h ▸ List.mem_cons_self _ _
          · simp at h
        · simp at h
      · rw [hrec] at hseg
        rcases List.mem_cons.mp hseg with h | h
        · subst h
          rcases List.mem_cons.mp hc with h | h
          · exact h ▸ List.mem_cons_self _ _
          · exact List.mem_cons_of_mem _ (ih (hrec ▸ List.mem_cons_self _ _) h)
        · exact List.mem_cons_of_mem _ (ih (hrec ▸ List.mem_cons_of_mem _ h) hc)

theorem splitDot_ascii {s : String} (h : isAsciiString s = true) :
    ∀ seg ∈ splitDot s, isAsciiString seg = true := by
  intro seg hseg
  rcases List.mem_map.mp hseg with ⟨l, hl, rfl⟩
  simp only [isAsciiString, List.all_eq_true] at h ⊢
  intro c hc
  exact h c (mem_splitChar hl hc)

theorem mapM_borrowed (f : String → Except IdnaError Cow) :
    ∀ (segs : List String), (∀ seg ∈ segs, f seg = .ok (.borrowed seg)) →
      segs.mapM f = .ok (segs.map Cow.borrowed) := by
  intro segs
  induction segs with
  | nil => intro _; rfl
  | cons a as ih =>
    intro h
    rw [List.mapM_cons, h a (List.mem_cons_self _ _), ih (fun seg hs => h seg (List.mem_cons_of_mem _ hs))]
    rfl

theorem host_to_ascii_of_ascii {s : String} (h : isAsciiString s = true) :
    hostToAsciiStr s = .ok s := by
  have hsegs : (splitDot s).mapM to_ascii = .ok ((splitDot s).map Cow.borrowed) := by
    apply mapM_borrowed
    intro seg hseg
    rw [to_ascii, if_pos (splitDot_ascii h seg hseg)]
  rw [hostToAsciiStr, host_to_ascii, hsegs]
  simp [Cow.isBorrowed, Cow.str, List.all_map]

theorem host_to_unicode_no_marker {s : String}
    (h : ∀ seg ∈ splitDot s, startsWithAsciiLowercase seg "xn--" = false) :
    hostToUnicodeStr s = .ok s := by
  have hsegs : (splitDot s).mapM to_unicode = .ok ((splitDot s).map Cow.borrowed) := by
    apply mapM_borrowed
    intro seg hseg
    rw [to_unicode, h seg hseg]
    rfl
  rw [hostToUnicodeStr, host_to_unicode, hsegs]
  simp [Cow.isBorrowed, Cow.str, List.all_map]

/-! ## Claim C9 -/

/-- C9: host-level IDNA conversion laws: `to_ascii("bücher.de.") =
"xn--bcher-kva.de."` and back, with the trailing dot preserved; and both
host-level conversions are idempotent on already-converted forms — an
all-ASCII host is returned unchanged by `host_to_ascii`, and a host none
of whose labels begins case-insensitively with `xn--` is returned
unchanged by `host_to_unicode`. -/
theorem claim_C9_idna_host_laws :
    hostToAsciiStr "bücher.de." = .ok "xn--bcher-kva.de."
    ∧ hostToUnicodeStr "xn--bcher-kva.de." = .ok "bücher.de."
    ∧ (∀ s : String, isAsciiString s = true → hostToAsciiStr s = .ok s)
    ∧ (∀ s : String,
        (∀ seg ∈ splitDot s, startsWithAsciiLowercase seg "xn--" = false) →
        hostToUnicodeStr s = .ok s) :=
  ⟨by decide, by decide,
   fun _ h => host_to_ascii_of_ascii h,
   fun _ h => host_to_unicode_no_marker h⟩

/-- Witness for C9: idempotence instantiated at the two converted forms. -/
theorem claim_C9_idna_host_laws_witness :
    hostToAsciiStr "xn--bcher-kva.de." = .ok "xn--bcher-kva.de."
    ∧ hostToUnicodeStr "bücher.de." = .ok "bücher.de." :=
  ⟨claim_C9_idna_host_laws.2.2.1 _ (by decide),
   claim_C9_idna_host_laws.2.2.2 _ (by decide)⟩


theorem write_length_le {w : MsgWriter} {bs : List Nat} {w' : MsgWriter}
    (h : w.write bs = .ok w') : w'.data.length ≤ MESSAGE_LIMIT := by
  unfold MsgWriter.write at h
  split at h
  · cases h
  · split at h
    · cases h
    · rename_i h1 h2
      cases h
      simp only [MsgWriter.written, not_lt] at h1
      simpa using h1

theorem writeNameLoop_length_le :
    ∀ (segs : List String) (w : MsgWriter) (t : Nat) (w' : MsgWriter) (t' : Nat),
    w.data.length ≤ MESSAGE_LIMIT → writeNameLoop w t segs = .ok (w', t') →
    w'.data.length ≤ MESSAGE_LIMIT := by
  intro segs
  induction segs with
  | nil =>
    intro w t w' t' hw h
    simp only [writeNameLoop] at h
    cases h
    exact hw
  | cons s rest ih =>
    intro w t w' t' hw h
    simp only [writeNameLoop] at h
    split at h
    · cases h
    · split at h
      · cases h
      · split at h
        · cases h
        · split at h
          · cases h
          · split at h
            · cases h
            · rename_i w1 hw1
              split at h
              · cases h
              · rename_i w2 hw2
                exact ih w2 _ w' t' (write_length_le hw2) h

theorem write_name_length_le {w : MsgWriter} {name : String} {w' : MsgWriter}
    (hw : w.data.length ≤ MESSAGE_LIMIT) (h : write_name w name = .ok w') :
    w'.data.length ≤ MESSAGE_LIMIT := by
  unfold write_name at h
  split at h
  · cases h
  · split at h
    · exact write_length_le h
    · split at h
      · cases h
      · rename_i p hp
        split at h
        · split at h
          · cases h
          · exact write_length_le h
        · cases h
          exact writeNameLoop_length_le _ w 0 _ _ hw hp

theorem writeQuestion_length_le {w : MsgWriter} {q : Question} {w' : MsgWriter}
    (hw : w.data.length ≤ MESSAGE_LIMIT) (h : writeQuestion w q = .ok w') :
    w'.data.length ≤ MESSAGE_LIMIT := by
  unfold writeQuestion at h
  split at h
  · cases h
  · exact write_length_le h

theorem writeResource_length_le {w : MsgWriter} {r : Resource} {w' : MsgWriter}
    (hw : w.data.length ≤ MESSAGE_LIMIT) (h : writeResource w r = .ok w') :
    w'.data.length ≤ MESSAGE_LIMIT := by
  unfold writeResource at h
  split at h
  · cases h
  · split at h
    · cases h
    · split at h
      · cases h
      · exact write_length_le h

theorem writeQuestions_length_le :
    ∀ (qs : List Question) (w : MsgWriter) (w' : MsgWriter),
    w.data.length ≤ MESSAGE_LIMIT → writeQuestions w qs = .ok w' →
    w'.data.length ≤ MESSAGE_LIMIT := by
  intro qs
  induction qs with
  | nil =>
    intro w w' hw h
    simp only [writeQuestions] at h
    cases h
    exact hw
  | cons q rest ih =>
    intro w w' hw h
    simp only [writeQuestions] at h
    split at h
    · cases h
    · rename_i w1 hw1
      exact ih w1 w' (writeQuestion_length_le hw hw1) h

theorem writeResources_length_le :
    ∀ (rs : List Resource) (w : MsgWriter) (w' : MsgWriter),
    w.data.length ≤ MESSAGE_LIMIT → writeResources w rs = .ok w' →
    w'.data.length ≤ MESSAGE_LIMIT := by
  intro rs
  induction rs with
  | nil =>
    intro w w' hw h
    simp only [writeResources] at h
    cases h
    exact hw
  | cons r rest ih =>
    intro w w' hw h
    simp only [writeResources] at h
    split at h
    · cases h
    · rename_i w1 hw1
      exact ih w1 w' (writeResource_length_le hw hw1) h

theorem encode_length_le {m : Message} {bufLen : Nat} {out : List Nat}
    (h : m.encode bufLen = .ok out) : out.length ≤ MESSAGE_LIMIT := by
  unfold Message.encode at h
  split at h
  · cases h
  · split at h
    · cases h
    · split at h
      · cases h
      · split at h
        · cases h
        · dsimp only at h
          split at h
          · cases h
          · rename_i w1 hw1
            split at h
            · cases h
            · rename_i w2 hw2
              split at h
              · cases h
              · rename_i w3 hw3
                split at h
                · cases h
                · rename_i w4 hw4
                  split at h
                  · cases h
                  · rename_i w5 hw5
                    cases h
                    have h1 : w1.data.length ≤ MESSAGE_LIMIT := write_length_le hw1
                    have h2 := writeQuestions_length_le _ _ _ h1 hw2
                    have h3 := writeResources_length_le _ _ _ h2 hw3
                    have h4 := writeResources_length_le _ _ _ h3 hw4
                    exact writeResources_length_le _ _ _ h4 hw5


theorem readNameLoop_self_pointer :
    ∀ fuel : Nat,
    readNameLoop [0xC0, 0x00, 0xC0, 0x00] 2 fuel 0 (some 4) "" 0 = none := by
  intro fuel
  induction fuel with
  | zero => rfl
  | succ f ih => exact ih

/-- C4: the pointer-loop defense is incomplete. A pointer whose 14-bit
target is ≥ the offset at which the name began fails with `InvalidName`
(second conjunct, target 2 ≥ start 0). But decoding does *not* always
terminate: in `[C0 00 C0 00]`, reading a name at offset 2 follows the
pointer to offset 0, where a self-pointer to offset 0 passes the
`offset < start` check (0 < 2) forever — `readNameLoop` exhausts every
fuel bound, i.e. the source loops, despite its comment "To prevent an
infinite loop". -/
theorem claim_C4_pointer_defense :
    (∀ fuel : Nat, readNameLoop [0xC0, 0x00, 0xC0, 0x00] 2 fuel 2 none "" 0 = none)
    ∧ read_name (MsgReader.new [0xC0, 0x02, 0x00, 0x00]) 5 = some (.error .InvalidName) := by
  refine ⟨?_, by decide⟩
  intro fuel
  cases fuel with
  | zero => rfl
  | succ f => exact readNameLoop_self_pointer f

theorem recvLoop_replicate (outId : Nat) (m : Nat) (evs : List RecvEvent) :
    recvLoop outId (List.replicate m .ok_none ++ evs) = recvLoop outId evs := by
  induction m with
  | zero => rfl
  | succ k ih =>
    rw [List.replicate_succ, List.cons_append]
    exact ih

theorem sendMessageGo_timeout_outcome (cfg : DnsConfig) (outId : Nat) :
    ∀ (ps : List (Nat × Error)) (retries cursor : Nat) (lastErr : Option Error)
      (sends : List Nat),
    (sendMessageGo cfg outId ps.length retries cursor (timeoutScript ps) lastErr sends).1
      = match ps.getLast? with
        | some p => .err p.2
        | none =>
          match lastErr with
          | some e => .err e
          | none => .panicNone := by
  intro ps
  induction ps with
  | nil => intro retries cursor lastErr sends; cases lastErr <;> rfl
  | cons p rest ih =>
    intro retries cursor lastErr sends
    obtain ⟨m, e⟩ := p
    show (sendMessageGo cfg outId (rest.length + 1) retries cursor
      (List.replicate m .ok_none ++ .timeout e :: timeoutScript rest) lastErr sends).1 = _
    rw [sendMessageGo, recvLoop_replicate]
    show (sendMessageGo cfg outId rest.length (retries + 1) _ (timeoutScript rest) (some e) _).1 = _
    rw [ih]
    rw [show ((m, e) :: rest : List (Nat × Error)) = [(m, e)] ++ rest from rfl,
      List.getLast?_append]
    cases hr : rest.getLast? <;> rfl


theorem sendMessageGo_timeout_sends_rotate (cfg : DnsConfig) (outId : Nat)
    (hrot : cfg.rotate = true) :
    ∀ (ps : List (Nat × Error)) (retries cursor : Nat) (lastErr : Option Error)
      (sends : List Nat), cursor < cfg.name_servers.length →
    (sendMessageGo cfg outId ps.length retries cursor (timeoutScript ps) lastErr sends).2.1
      = sends ++ (List.range ps.length).map
          (fun i => cfg.name_servers.getD ((cursor + i) % cfg.name_servers.length) 0) := by
  intro ps
  induction ps with
  | nil =>
    intro retries cursor lastErr sends _
    cases lastErr <;> simp [sendMessageGo]
  | cons p rest ih =>
    intro retries cursor lastErr sends hc
    obtain ⟨m, e⟩ := p
    have hk : 0 < cfg.name_servers.length := Nat.lt_of_le_of_lt (Nat.zero_le _) hc
    simp only [timeoutScript, List.length_cons]
    rw [sendMessageGo, recvLoop_replicate]
    simp only [recvLoop, hrot, if_true]
    rw [ih (retries + 1) _ (some e) _ (Nat.mod_lt _ hk)]
    rw [List.range_succ_eq_map, List.map_cons, List.map_map]
    simp only [List.append_assoc, List.singleton_append]
    congr 2
    · rw [Nat.add_zero, Nat.mod_eq_of_lt hc]
    · apply List.map_congr_left
      intro i _
      simp only [Function.comp]
      rw [Nat.mod_add_mod]
      congr 2
      omega

theorem sendMessageGo_timeout_sends_norotate (cfg : DnsConfig) (outId : Nat)
    (hrot : cfg.rotate = false) :
    ∀ (ps : List (Nat × Error)) (retries cursor : Nat) (lastErr : Option Error)
      (sends : List Nat),
    (sendMessageGo cfg outId ps.length retries cursor (timeoutScript ps) lastErr sends).2.1
      = sends ++ (List.range ps.length).map
          (fun i => cfg.name_servers.getD ((retries + i) % cfg.name_servers.length) 0) := by
  intro ps
  induction ps with
  | nil =>
    intro retries cursor lastErr sends
    cases lastErr <;> simp [sendMessageGo]
  | cons p rest ih =>
    intro retries cursor lastErr sends
    obtain ⟨m, e⟩ := p
    simp only [timeoutScript, List.length_cons]
    rw [sendMessageGo, recvLoop_replicate]
    simp only [recvLoop, hrot, if_neg Bool.false_ne_true]
    rw [ih (retries + 1) cursor (some e) _]
    rw [List.range_succ_eq_map, List.map_cons, List.map_map]
    simp only [List.append_assoc, List.singleton_append]
    congr 2
    apply List.map_congr_left
    intro i _
    simp only [Function.comp]
    congr 2
    omega


/-- C6: any write that would push the total output past
`MESSAGE_LIMIT` = 512 bytes fails with `TooLong` no matter the size of
the underlying buffer; consequently no successful `Message::encode`
returns more than 512 bytes. -/
theorem claim_C6_hard_message_limit :
    (∀ (bufLen : Nat) (dat bytes : List Nat),
      MESSAGE_LIMIT < dat.length + bytes.length →
      MsgWriter.write ⟨bufLen, dat⟩ bytes = .error .TooLong)
    ∧ (∀ (m : Message) (bufLen : Nat) (out : List Nat),
      Message.encode m bufLen = .ok out → out.length ≤ MESSAGE_LIMIT) := by
  constructor
  · intro bufLen dat bytes h
    unfold MsgWriter.write
    rw [if_pos]
    exact h
  · intro m bufLen out h
    exact encode_length_le h

/-- Witness for C6: an oversized write fails even in a 1024-byte buffer,
and the sample message encodes within the limit. -/
theorem claim_C6_hard_message_limit_witness :
    MsgWriter.write ⟨1024, List.replicate 513 0⟩ [0] = .error .TooLong
    ∧ sampleEncoded.length ≤ MESSAGE_LIMIT := by
  constructor
  · exact claim_C6_hard_message_limit.1 1024 _ [0]
      (by rw [List.length_replicate]; norm_num [MESSAGE_LIMIT])
  · exact claim_C6_hard_message_limit.2 sampleMessage 64 sampleEncoded (by decide)

/-- C7: name-server selection. With `rotate`, each send uses the cursor
post-incremented modulo K, so starting from cursor `c` the `i`-th send
targets `name_servers[(c+i) % K]` — independent of how many receive
iterations (stray datagrams) occur within each attempt; with
`rotate = false`, attempt `i` targets `name_servers[i % K]`. In
particular, from cursor 0 with servers `[A,B,C] = [10,20,30]`, three
successive sends target A, B, C for any amounts of padding. -/
theorem claim_C7_server_selection :
    (∀ (cfg : DnsConfig) (outId : Nat) (ps : List (Nat × Error)) (cursor : Nat),
      cfg.rotate = true → cfg.attempts = ps.length →
      cursor < cfg.name_servers.length →
      (send_message cfg outId (timeoutScript ps) cursor).2.1
        = (List.range ps.length).map
            (fun i => cfg.name_servers.getD ((cursor + i) % cfg.name_servers.length) 0))
    ∧ (∀ (cfg : DnsConfig) (outId : Nat) (ps : List (Nat × Error)) (cursor : Nat),
      cfg.rotate = false → cfg.attempts = ps.length →
      (send_message cfg outId (timeoutScript ps) cursor).2.1
        = (List.range ps.length).map
            (fun i => cfg.name_servers.getD (i % cfg.name_servers.length) 0))
    ∧ (∀ (m1 m2 m3 : Nat) (e : Error) (outId : Nat),
      (send_message rotateConfig outId
          (timeoutScript [(m1, e), (m2, e), (m3, e)]) 0).2.1 = [10, 20, 30]) := by
  refine ⟨?_, ?_, ?_⟩
  · intro cfg outId ps cursor hrot hatt hc
    rw [send_message, hatt, sendMessageGo_timeout_sends_rotate cfg outId hrot ps 0 cursor none [] hc]
    simp
  · intro cfg outId ps cursor hrot hatt
    rw [send_message, hatt, sendMessageGo_timeout_sends_norotate cfg outId hrot ps 0 cursor none []]
    simp
  · intro m1 m2 m3 e outId
    have h := sendMessageGo_timeout_sends_rotate rotateConfig outId rfl
      [(m1, e), (m2, e), (m3, e)] 0 0 none [] (by decide)
    show (sendMessageGo rotateConfig outId [(m1, e), (m2, e), (m3, e)].length 0 0
      (timeoutScript [(m1, e), (m2, e), (m3, e)]) none []).2.1 = [10, 20, 30]
    rw [h]
    simp only [List.length_cons, List.length_nil]
    decide

/-- C10: with `attempts = 0` the retry loop runs zero times, no send is
performed, and `send_message` reaches `last_err.unwrap()` on `None` — a
panic (`panicNone`); with `attempts = ps.length ≥ 1` timeouts on every
attempt, the last timeout error is returned. -/
theorem claim_C10_attempts_zero_panic :
    (∀ (cfg : DnsConfig) (outId : Nat) (script : List RecvEvent) (cursor : Nat),
      cfg.attempts = 0 →
      send_message cfg outId script cursor = (.panicNone, [], cursor))
    ∧ (∀ (cfg : DnsConfig) (outId : Nat) (ps : List (Nat × Error)) (cursor : Nat)
        (p : Nat × Error),
      cfg.attempts = ps.length → ps.getLast? = some p →
      (send_message cfg outId (timeoutScript ps) cursor).1 = .err p.2) := by
  constructor
  · intro cfg outId script cursor h
    rw [send_message, h]
    rfl
  · intro cfg outId ps cursor p hatt hlast
    rw [send_message, hatt, sendMessageGo_timeout_outcome cfg outId ps 0 cursor none [], hlast]

/-- Witness for C10: a zero-attempts configuration panics without
sending; three all-timeout attempts return the third timeout error. -/
theorem claim_C10_witness :
    send_message { rotateConfig with attempts := 0 } 7 [] 5 = (.panicNone, [], 5)
    ∧ (send_message rotateConfig 7
        (timeoutScript [(1, .IoError "a"), (0, .IoError "b"), (2, .IoError "c")]) 0).1
      = .err (.IoError "c") := by
  constructor
  · exact claim_C10_attempts_zero_panic.1 _ 7 [] 5 rfl
  · exact claim_C10_attempts_zero_panic.2 rotateConfig 7 _ 0 (2, .IoError "c") rfl (by decide)

/-- Witness for C7: rotation from cursor 0 over `[10,20,30]` targets
each server once; without rotation, five attempts over three servers
target `[10,20,30,10,20]` regardless of the cursor. -/
theorem claim_C7_witness :
    (send_message rotateConfig 7
        (timeoutScript [(2, .IoError "t"), (0, .IoError "t"), (5, .IoError "t")]) 0).2.1
      = [10, 20, 30]
    ∧ (send_message { rotateConfig with rotate := false, attempts := 5 } 7
        (timeoutScript [(0, .IoError "t"), (1, .IoError "t"), (0, .IoError "t"),
          (3, .IoError "t"), (0, .IoError "t")]) 4).2.1
      = [10, 20, 30, 10, 20] := by
  constructor
  · exact claim_C7_server_selection.2.2 2 0 5 (.IoError "t") 7
  · have h := claim_C7_server_selection.2.1 { rotateConfig with rotate := false, attempts := 5 }
      7 [(0, .IoError "t"), (1, .IoError "t"), (0, .IoError "t"),
          (3, .IoError "t"), (0, .IoError "t")] 4 rfl rfl
    rw [h]
    decide


theorem readRdataA_of_length4 {d : List Nat} (h : d.length = 4) :
    readRdataA d = .ok (.V4 (d.getD 0 0) (d.getD 1 0) (d.getD 2 0) (d.getD 3 0)) := by
  match d, h with
  | [a, b, c, e], _ => rfl

theorem collectA_spec :
    ∀ (rs : List Resource) (acc : List IpAddr),
    (∀ rr ∈ rs, rr.r_type = .A → rr.data.length = 4) →
    collectA rs acc
      = (acc ++ (rs.filter (fun rr => decide (rr.r_type = .A))).map specArdata, none) := by
  intro rs
  induction rs with
  | nil => intro acc _; simp [collectA]
  | cons rr rest ih =>
    intro acc h
    by_cases hA : rr.r_type = .A
    · rw [collectA, if_pos hA,
        readRdataA_of_length4 (h rr (List.mem_cons_self _ _) hA)]
      dsimp only
      rw [ih (acc ++ [IpAddr.V4 (rr.data.getD 0 0) (rr.data.getD 1 0) (rr.data.getD 2 0)
          (rr.data.getD 3 0)]) (fun r hr hAr => h r (List.mem_cons_of_mem _ hr) hAr)]
      simp [List.filter_cons, hA, specArdata]
    · rw [collectA, if_neg hA]
      rw [ih acc (fun r hr hAr => h r (List.mem_cons_of_mem _ hr) hAr)]
      simp [List.filter_cons, hA]

/-- Counterexample for C3: when the A query fails with one error and the
AAAA query fails with a different error (both yielding no addresses), the
code returns the A query's error — the *first* error, produced by
`err.or(...)` — not the last one the claim requires. -/
theorem claim_C3_counterexample_first_error_wins :
    resolveHostCandidate false (.error (.IoError "connection timed out"))
        (.error (.DnsError .ServerFailure))
      = .error (.IoError "connection timed out")
    ∧ resolveHostCandidate false (.error (.IoError "connection timed out"))
        (.error (.DnsError .ServerFailure))
      ≠ .error (.DnsError .ServerFailure) :=
  ⟨by decide, by decide⟩

/-- C3 (amended): with `use_inet6 = false`, the A query's addresses come
first and the AAAA query's addresses are appended after them; when both
queries produce no addresses, the *first* error is returned — the A
query's error when it erred, otherwise the AAAA query's error — and a
clean A reply contributes exactly its `A`-typed records, decoded in
order. -/
theorem claim_C3_dual_stack_v4_first :
    (∀ (v4send v6send : Except Error Message) (l4 l6 : List IpAddr),
      resolve_host_v4 v4send = (l4, none) →
      resolve_host_v6 (fun ip => ip) v6send = (l6, none) →
      l4 ++ l6 ≠ [] →
      resolveHostCandidate false v4send v6send = .ok (l4 ++ l6))
    ∧ (∀ e4 e6 : Error,
      resolveHostCandidate false (.error e4) (.error e6) = .error e4)
    ∧ (∀ (v4send : Except Error Message) (e6 : Error),
      resolve_host_v4 v4send = ([], none) →
      resolveHostCandidate false v4send (.error e6) = .error e6)
    ∧ (∀ (v6send : Except Error Message) (e4 : Error),
      resolve_host_v6 (fun ip => ip) v6send = ([], none) →
      resolveHostCandidate false (.error e4) v6send = .error e4)
    ∧ (∀ m : Message,
      (∀ rr ∈ m.intoRecords, rr.r_type = .A → rr.data.length = 4) →
      resolve_host_v4 (.ok m)
        = ((m.intoRecords.filter (fun rr => decide (rr.r_type = .A))).map specArdata,
            none)) := by
  refine ⟨?_, ?_, ?_, ?_, ?_⟩
  · intro v4send v6send l4 l6 h4 h6 hne
    unfold resolveHostCandidate
    rw [if_neg Bool.false_ne_true, h4, h6]
    simp only []
    rw [if_pos]
    simp
    intro h1 h2
    exact hne (by simp [h1, h2])
  · intro e4 e6
    rfl
  · intro v4send e6 h
    unfold resolveHostCandidate
    rw [if_neg Bool.false_ne_true, h]
    rfl
  · intro v6send e4 h
    unfold resolveHostCandidate
    rw [if_neg Bool.false_ne_true, h]
    rfl
  · intro m h
    simp only [resolve_host_v4]
    rw [collectA_spec m.intoRecords [] h]
    simp


/-- Witness for C3 (amended): instantiated at a one-answer A reply and an
empty AAAA reply, and at concrete error pairs. -/
theorem claim_C3_dual_stack_v4_first_witness :
    resolveHostCandidate false (.ok aAnswerMessage) (.ok emptyMessage)
      = .ok [.V4 1 2 3 4]
    ∧ resolveHostCandidate false (.error (.IoError "x")) (.error (.IoError "y"))
      = .error (.IoError "x")
    ∧ resolveHostCandidate false (.ok emptyMessage) (.error (.IoError "y"))
      = .error (.IoError "y")
    ∧ resolveHostCandidate false (.error (.IoError "x")) (.ok emptyMessage)
      = .error (.IoError "x")
    ∧ resolve_host_v4 (.ok aAnswerMessage) = ([.V4 1 2 3 4], none) := by
  refine ⟨?_, ?_, ?_, ?_, ?_⟩
  · exact claim_C3_dual_stack_v4_first.1 (.ok aAnswerMessage) (.ok emptyMessage)
      [.V4 1 2 3 4] [] (by decide) (by decide) (by decide)
  · exact claim_C3_dual_stack_v4_first.2.1 (.IoError "x") (.IoError "y")
  · exact claim_C3_dual_stack_v4_first.2.2.1 (.ok emptyMessage) (.IoError "y") (by decide)
  · exact claim_C3_dual_stack_v4_first.2.2.2.1 (.ok emptyMessage) (.IoError "x") (by decide)
  · have h := claim_C3_dual_stack_v4_first.2.2.2.2 aAnswerMessage (by decide)
    rw [h]
    decide

theorem utf8EncodeChar_ascii {c : Char} (h : c.toNat ≤ 0x7F) :
    utf8EncodeChar c = [c.toNat] := by
  unfold utf8EncodeChar
  rw [if_pos (by omega)]

theorem utf8Bytes_ascii {s : String} (h : isAsciiString s = true) :
    utf8Bytes s = s.data.map Char.toNat := by
  simp only [isAsciiString, List.all_eq_true] at h
  unfold utf8Bytes
  induction s with
  | mk data =>
    induction data with
    | nil => rfl
    | cons c cs ih =>
      simp only [List.map_cons, List.flatten_cons]
      rw [utf8EncodeChar_ascii (by simpa using h c (List.mem_cons_self _ _))]
      have := ih (fun x hx => h x (List.mem_cons_of_mem _ hx))
      simpa using this

theorem utf8Len_ascii {s : String} (h : isAsciiString s = true) :
    utf8Len s = s.data.length := by
  rw [utf8Len, utf8Bytes_ascii h, List.length_map]

theorem data_mk (l : List Char) : (String.mk l).data = l := rfl

theorem string_eq_of_data {s t : String} (h : s.data = t.data) : s = t :=
  congrArg String.mk h

theorem ofNat_toNat_map (l : List Char) :
    (l.map Char.toNat).map Char.ofNat = l := by
  induction l with
  | nil => rfl
  | cons c cs ih => simp [Char.ofNat_toNat, ih]

theorem splitChar_no_sep {sep : Char} :
    ∀ {l : List Char}, sep ∉ l → splitChar sep l = [l] := by
  intro l
  induction l with
  | nil => intro _; rfl
  | cons c cs ih =>
    intro h
    rw [splitChar, if_neg (fun hc => h (List.mem_cons.mpr (Or.inl hc.symm))),
      ih (fun hc => h (List.mem_cons_of_mem _ hc))]

theorem splitChar_append {sep : Char} :
    ∀ {l₁ : List Char} (l₂ : List Char), sep ∉ l₁ →
    splitChar sep (l₁ ++ sep :: l₂) = l₁ :: splitChar sep l₂ := by
  intro l₁
  induction l₁ with
  | nil =>
    intro l₂ _
    rw [List.nil_append, splitChar, if_pos rfl]
  | cons c cs ih =>
    intro l₂ h
    rw [List.cons_append, splitChar,
      if_neg (fun hc => h (List.mem_cons.mpr (Or.inl hc.symm))),
      ih l₂ (fun hc => h (List.mem_cons_of_mem _ hc))]

theorem joinDot_cons_data {l : String} {rest : List String} (h : rest ≠ []) :
    (joinDot (l :: rest)).data = l.data ++ '.' :: (joinDot rest).data := by
  cases rest with
  | nil => exact absurd rfl h
  | cons l2 rest2 =>
    show (l ++ "." ++ joinDot (l2 :: rest2)).data = _
    rw [String.data_append, String.data_append, List.append_assoc]
    rfl

theorem splitDot_joinDot {labels : List String}
    (hne : labels ≠ []) (hdot : ∀ l ∈ labels, '.' ∉ l.data) :
    splitDot (joinDot labels) = labels := by
  induction labels with
  | nil => exact absurd rfl hne
  | cons l rest ih =>
    cases rest with
    | nil =>
      show (splitChar '.' (joinDot [l]).data).map String.mk = [l]
      rw [show joinDot [l] = l from rfl,
        splitChar_no_sep (hdot l (List.mem_cons_self _ _))]
      simp
    | cons l2 rest2 =>
      show (splitChar '.' (joinDot (l :: l2 :: rest2)).data).map String.mk = _
      rw [joinDot_cons_data (by simp),
        splitChar_append _ (hdot l (List.mem_cons_self _ _))]
      have := ih (by simp) (fun x hx => hdot x (List.mem_cons_of_mem _ hx))
      show String.mk l.data :: (splitChar '.' (joinDot (l2 :: rest2)).data).map String.mk = _
      rw [show (splitChar '.' (joinDot (l2 :: rest2)).data).map String.mk
          = splitDot (joinDot (l2 :: rest2)) from rfl, this]

theorem splitDot_joinDot_trailing {labels : List String}
    (hne : labels ≠ []) (hdot : ∀ l ∈ labels, '.' ∉ l.data) :
    splitDot (joinDot labels ++ ".") = labels ++ [""] := by
  induction labels with
  | nil => exact absurd rfl hne
  | cons l rest ih =>
    cases rest with
    | nil =>
      show (splitChar '.' (joinDot [l] ++ ".").data).map String.mk = _
      rw [String.data_append, show joinDot [l] = l from rfl]
      rw [show ("." : String).data = '.' :: [] from rfl,
        splitChar_append [] (hdot l (List.mem_cons_self _ _))]
      rfl
    | cons l2 rest2 =>
      show (splitChar '.' ((joinDot (l :: l2 :: rest2) ++ ".").data)).map String.mk = _
      rw [String.data_append, joinDot_cons_data (by simp), List.append_assoc,
        List.cons_append, splitChar_append _ (hdot l (List.mem_cons_self _ _))]
      have := ih (by simp) (fun x hx => hdot x (List.mem_cons_of_mem _ hx))
      show String.mk l.data
          :: (splitChar '.' ((joinDot (l2 :: rest2)).data ++ ("." : String).data)).map String.mk = _
      rw [← String.data_append,
        show (splitChar '.' ((joinDot (l2 :: rest2) ++ ".").data)).map String.mk
          = splitDot (joinDot (l2 :: rest2) ++ ".") from rfl, this]
      rfl

theorem hasDotDot_append {a : List Char} (t : List Char)
    (ha : ∀ c ∈ a, c ≠ '.') : hasDotDot (a ++ t) = hasDotDot t := by
  induction a with
  | nil => rfl
  | cons x a' ih =>
    have hx : x ≠ '.' := ha x (List.mem_cons_self _ _)
    have ha' : ∀ c ∈ a', c ≠ '.' := fun c hc => ha c (List.mem_cons_of_mem _ hc)
    cases a' with
    | nil =>
      cases t with
      | nil => rfl
      | cons y t' =>
        show hasDotDot (x :: y :: t') = hasDotDot (y :: t')
        rw [hasDotDot]
        simp [hx]
    | cons z a'' =>
      show hasDotDot (x :: z :: (a'' ++ t)) = _
      rw [hasDotDot]
      simp only [hx, decide_eq_false_iff_not, ne_eq, not_false_eq_true,
        Bool.false_and, Bool.false_or]
      exact ih ha'

theorem hasDotDot_dot_cons {c : Char} {cs : List Char} (hc : c ≠ '.') :
    hasDotDot ('.' :: c :: cs) = hasDotDot (c :: cs) := by
  rw [hasDotDot]
  simp [hc]

theorem joinDot_data_eq (l : String) (rest : List String) :
    ∃ r, (joinDot (l :: rest)).data = l.data ++ r := by
  cases rest with
  | nil => exact ⟨[], by simp [joinDot]⟩
  | cons a b => exact ⟨_, joinDot_cons_data (by simp)⟩

theorem joinDot_no_dotdot {labels : List String}
    (hne : labels ≠ []) (hlab : ∀ l ∈ labels, l ≠ "" ∧ '.' ∉ l.data) :
    ∀ t : List Char, hasDotDot ((joinDot labels).data ++ t) = hasDotDot t := by
  induction labels with
  | nil => exact absurd rfl hne
  | cons l rest ih =>
    intro t
    have hl := hlab l (List.mem_cons_self _ _)
    have hldot : ∀ c ∈ l.data, c ≠ '.' := fun c hc heq => hl.2 (heq ▸ hc)
    cases rest with
    | nil =>
      show hasDotDot ((joinDot [l]).data ++ t) = hasDotDot t
      rw [show joinDot [l] = l from rfl]
      exact hasDotDot_append t hldot
    | cons l2 rest2 =>
      rw [joinDot_cons_data (by simp), List.append_assoc, List.cons_append,
        hasDotDot_append _ hldot]
      obtain ⟨r, hr⟩ := joinDot_data_eq l2 rest2
      have h2 := hlab l2 (by simp)
      obtain ⟨c, cs, hd⟩ : ∃ c cs, l2.data = c :: cs := by
        cases hd : l2.data with
        | nil => exact absurd (string_eq_of_data hd) h2.1
        | cons c cs => exact ⟨c, cs, rfl⟩
      have hc : c ≠ '.' := by
        intro heq
        apply h2.2
        rw [hd]
        exact List.mem_cons.mpr (Or.inl heq.symm)
      have hshape : (joinDot (l2 :: rest2)).data ++ t = c :: (cs ++ r ++ t) := by
        rw [hr, hd]
        simp
      rw [hshape, hasDotDot_dot_cons hc, ← hshape]
      exact ih (by simp) (fun x hx => hlab x (List.mem_cons_of_mem _ hx)) t

theorem goodLabel_spec {l : String} (h : goodLabel l = true) :
    l ≠ "" ∧ isAsciiString l = true ∧ is_valid_segment l = true ∧
      startsWithAsciiLowercase l "xn--" = false ∧ l.data.length ≤ 63 ∧
      '.' ∉ l.data := by
  simp only [goodLabel, Bool.and_eq_true, decide_eq_true_eq,
    Bool.not_eq_true'] at h
  tauto

theorem joinDot_ascii {labels : List String} (hne : labels ≠ [])
    (h : ∀ l ∈ labels, isAsciiString l = true) :
    isAsciiString (joinDot labels) = true := by
  induction labels with
  | nil => exact absurd rfl hne
  | cons l rest ih =>
    cases rest with
    | nil => exact h l (List.mem_cons_self _ _)
    | cons l2 rest2 =>
      simp only [isAsciiString, List.all_eq_true]
      intro c hc
      rw [joinDot_cons_data (by simp)] at hc
      rcases List.mem_append.mp hc with hc | hc
      · have := h l (List.mem_cons_self _ _)
        simp only [isAsciiString, List.all_eq_true] at this
        exact this c hc
      · rcases List.mem_cons.mp hc with rfl | hc
        · decide
        · have := ih (by simp) (fun x hx => h x (List.mem_cons_of_mem _ hx))
          simp only [isAsciiString, List.all_eq_true] at this
          exact this c hc

theorem joinDot_head (l1 : String) (rest : List String) (h1 : l1 ≠ "") :
    ∃ c cs, (joinDot (l1 :: rest)).data = c :: cs ∧
      (joinDot (l1 :: rest)).data.head? = l1.data.head? := by
  obtain ⟨r, hr⟩ := joinDot_data_eq l1 rest
  obtain ⟨c, cs, hd⟩ : ∃ c cs, l1.data = c :: cs := by
    cases hd : l1.data with
    | nil => exact absurd (string_eq_of_data hd) h1
    | cons c cs => exact ⟨c, cs, rfl⟩
  refine ⟨c, cs ++ r, ?_, ?_⟩
  · rw [hr, hd]; rfl
  · rw [hr, hd]; rfl

theorem joinDot_getLast {labels : List String}
    (hne : labels ≠ []) (hlab : ∀ l ∈ labels, l ≠ "" ∧ '.' ∉ l.data) :
    ∃ c, (joinDot labels).data.getLast? = some c ∧ c ≠ '.' := by
  induction labels with
  | nil => exact absurd rfl hne
  | cons l rest ih =>
    cases rest with
    | nil =>
      have hl := hlab l (List.mem_cons_self _ _)
      cases hg : l.data.getLast? with
      | none =>
        rw [List.getLast?_eq_none_iff] at hg
        exact absurd (string_eq_of_data hg) hl.1
      | some c =>
        refine ⟨c, hg, fun heq => hl.2 ?_⟩
        subst heq
        obtain ⟨hne', hc⟩ := List.mem_getLast?_eq_getLast
          (show '.' ∈ l.data.getLast? from by rw [hg]; rfl)
        rw [hc]
        exact List.getLast_mem hne'
    | cons l2 rest2 =>
      obtain ⟨c, hc, hcd⟩ := ih (by simp) (fun x hx => hlab x (List.mem_cons_of_mem _ hx))
      refine ⟨c, ?_, hcd⟩
      rw [joinDot_cons_data (by simp), List.getLast?_append]
      rw [show ('.' :: (joinDot (l2 :: rest2)).data : List Char)
          = ['.'] ++ (joinDot (l2 :: rest2)).data from rfl, List.getLast?_append, hc]
      rfl

theorem is_valid_name_joinDot {labels : List String}
    (hne : labels ≠ []) (hlab : ∀ l ∈ labels, goodLabel l = true) :
    is_valid_name (joinDot labels) = true
    ∧ is_valid_name (joinDot labels ++ ".") = true
    ∧ joinDot labels ≠ "."
    ∧ joinDot labels ++ "." ≠ "."
    ∧ endsWithDot (joinDot labels) = false
    ∧ endsWithDot (joinDot labels ++ ".") = true := by
  obtain ⟨l1, rest, rfl⟩ : ∃ l1 rest, labels = l1 :: rest := by
    cases labels with
    | nil => exact absurd rfl hne
    | cons a b => exact ⟨a, b, rfl⟩
  have h1 := goodLabel_spec (hlab l1 (List.mem_cons_self _ _))
  obtain ⟨c, cs, hdata, hhead⟩ := joinDot_head l1 rest h1.1
  have hl1head : l1.data.head? = some c := by rw [← hhead, hdata]; rfl
  have hcmem : c ∈ l1.data := by
    cases hl : l1.data with
    | nil => rw [hl] at hl1head; cases hl1head
    | cons x xs =>
      rw [hl] at hl1head
      simp only [List.head?_cons, Option.some.injEq] at hl1head
      rw [← hl1head]
      exact List.mem_cons_self _ _
  have hcdot : c ≠ '.' := fun heq => h1.2.2.2.2.2 (heq ▸ hcmem)
  have hascii : isAsciiString (joinDot (l1 :: rest)) = true :=
    joinDot_ascii hne (fun l hl => (goodLabel_spec (hlab l hl)).2.1)
  have hascii' : isAsciiString (joinDot (l1 :: rest) ++ ".") = true := by
    simp only [isAsciiString, List.all_eq_true, String.data_append] at hascii ⊢
    intro x hx
    rcases List.mem_append.mp hx with hx | hx
    · exact hascii x hx
    · rcases List.mem_cons.mp hx with rfl | hx
      · decide
      · cases hx
  have hdd : containsDotDot (joinDot (l1 :: rest)) = false := by
    have := joinDot_no_dotdot hne
      (fun l hl => ⟨(goodLabel_spec (hlab l hl)).1, (goodLabel_spec (hlab l hl)).2.2.2.2.2⟩) []
    rw [List.append_nil] at this
    exact this.trans rfl
  have hdd' : containsDotDot (joinDot (l1 :: rest) ++ ".") = false := by
    have := joinDot_no_dotdot hne
      (fun l hl => ⟨(goodLabel_spec (hlab l hl)).1, (goodLabel_spec (hlab l hl)).2.2.2.2.2⟩) ['.']
    rw [containsDotDot, String.data_append]
    exact this.trans rfl
  have hsw : startsWithDotB (joinDot (l1 :: rest)) = false := by
    rw [startsWithDotB, hdata]
    simp [hcdot]
  have hsw' : startsWithDotB (joinDot (l1 :: rest) ++ ".") = false := by
    rw [startsWithDotB, String.data_append, hdata]
    simp [hcdot]
  have hlen : utf8Len (joinDot (l1 :: rest)) ≠ 0 := by
    rw [utf8Len_ascii hascii, hdata]
    simp
  have hlen' : utf8Len (joinDot (l1 :: rest) ++ ".") ≠ 0 := by
    rw [utf8Len_ascii hascii', String.data_append, hdata]
    simp
  refine ⟨?_, ?_, ?_, ?_, ?_, ?_⟩
  · rw [is_valid_name]
    simp [hlen, hsw, hdd]
  · rw [is_valid_name]
    simp [hlen', hsw', hdd']
  · intro heq
    have : (joinDot (l1 :: rest)).data = ['.'] := by rw [heq]
    rw [hdata] at this
    cases this
    exact hcdot rfl
  · intro heq
    have h2 : (joinDot (l1 :: rest) ++ ".").data = ['.'] := by rw [heq]
    rw [String.data_append, hdata] at h2
    have h3 : c = '.' := by
      have := congrArg List.head? h2
      simpa using this
    exact hcdot h3
  · obtain ⟨x, hx, hxd⟩ := joinDot_getLast hne
      (fun l hl => ⟨(goodLabel_spec (hlab l hl)).1, (goodLabel_spec (hlab l hl)).2.2.2.2.2⟩)
    rw [endsWithDot, hx]
    simp [hxd]
  · rw [endsWithDot, String.data_append]
    rw [show ("." : String).data = ['.'] from rfl, List.getLast?_concat]
    rfl

theorem write_ok {w : MsgWriter} {bs : List Nat}
    (h1 : w.data.length + bs.length ≤ MESSAGE_LIMIT)
    (h2 : w.data.length + bs.length ≤ w.bufLen) :
    w.write bs = .ok ⟨w.bufLen, w.data ++ bs⟩ := by
  unfold MsgWriter.write
  rw [if_neg, if_neg]
  · simp only [MsgWriter.written, not_lt]
    exact h2
  · simp only [MsgWriter.written, not_lt]
    exact h1

theorem to_ascii_borrowed {s : String} (h : isAsciiString s = true) :
    to_ascii s = .ok (.borrowed s) := by
  rw [to_ascii, if_pos h]

theorem encLen_cons (l : String) (rest : List String) :
    encLen (l :: rest) = 1 + utf8Len l + encLen rest := by
  simp [encLen, Nat.add_assoc]

theorem nameBody_cons (l : String) (rest : List String) :
    nameBody (l :: rest) = utf8Len l :: (utf8Bytes l ++ nameBody rest) := by
  simp [nameBody]

theorem utf8Bytes_length_ascii {l : String} (h : isAsciiString l = true) :
    (utf8Bytes l).length = utf8Len l := rfl

theorem writeNameLoop_ok :
    ∀ (labels : List String) (w : MsgWriter) (t : Nat),
    (∀ l ∈ labels, isAsciiString l = true ∧ is_valid_segment l = true ∧
      l.data.length ≤ 63) →
    t + encLen labels ≤ NAME_LIMIT →
    w.data.length + encLen labels ≤ MESSAGE_LIMIT →
    w.data.length + encLen labels ≤ w.bufLen →
    writeNameLoop w t labels
      = .ok (⟨w.bufLen, w.data ++ nameBody labels⟩, t + encLen labels) := by
  intro labels
  induction labels with
  | nil =>
    intro w t _ _ _ _
    simp [writeNameLoop, encLen, nameBody]
  | cons l rest ih =>
    intro w t hlab hname hlim hbuf
    have hl := hlab l (List.mem_cons_self _ _)
    have hLen : utf8Len l = l.data.length := utf8Len_ascii hl.1
    have hle : utf8Len l ≤ 63 := by rw [hLen]; exact hl.2.2
    have henc := encLen_cons l rest
    rw [henc] at hname hlim hbuf
    rw [writeNameLoop, to_ascii_borrowed hl.1]
    dsimp only
    dsimp only [Cow.str]
    rw [if_neg (by simp [hl.2.1])]
    rw [if_neg (by simp only [LABEL_LIMIT, not_lt]; exact hle)]
    rw [if_neg (by simp only [NAME_LIMIT, not_lt] at hname ⊢; omega)]
    rw [show MsgWriter.writeByte w (utf8Len l % 256)
        = w.write [utf8Len l % 256] from rfl]
    rw [Nat.mod_eq_of_lt (by omega)]
    rw [write_ok
      (by simp only [List.length_cons, List.length_nil, MESSAGE_LIMIT] at hlim ⊢
          omega)
      (by simp only [List.length_cons, List.length_nil]
          omega)]
    dsimp only
    rw [write_ok
      (by simp only [List.length_append, List.length_cons, List.length_nil,
            utf8Bytes_length_ascii hl.1, MESSAGE_LIMIT] at hlim ⊢
          omega)
      (by simp only [List.length_append, List.length_cons, List.length_nil,
            utf8Bytes_length_ascii hl.1]
          omega)]
    dsimp only
    rw [ih _ _ (fun x hx => hlab x (List.mem_cons_of_mem _ hx))
      (by simp only [NAME_LIMIT] at hname ⊢; omega)
      (by simp only [List.length_append, List.length_cons, List.length_nil,
          utf8Bytes_length_ascii hl.1, MESSAGE_LIMIT] at hlim ⊢
          omega)
      (by simp only [List.length_append, List.length_cons, List.length_nil,
          utf8Bytes_length_ascii hl.1]
          omega)]
    simp only [Except.ok.injEq, Prod.mk.injEq, MsgWriter.mk.injEq, nameBody_cons]
    refine ⟨⟨trivial, ?_⟩, ?_⟩
    · simp [List.append_assoc]
    · omega

theorem nameBody_append (a b : List String) :
    nameBody (a ++ b) = nameBody a ++ nameBody b := by
  simp [nameBody]

theorem encLen_append (a b : List String) :
    encLen (a ++ b) = encLen a + encLen b := by
  simp [encLen]

theorem nameBody_length (labels : List String) :
    (nameBody labels).length = encLen labels := by
  induction labels with
  | nil => rfl
  | cons l rest ih =>
    rw [nameBody_cons, encLen_cons]
    simp only [List.length_cons, List.length_append, ih]
    rw [show (utf8Bytes l).length = utf8Len l from rfl]
    omega

theorem write_name_ok {labels : List String} (trailingDot : Bool)
    (hne : labels ≠ []) (hlab : ∀ l ∈ labels, goodLabel l = true)
    (hlen : encLen labels + 1 ≤ NAME_LIMIT) :
    write_name (MsgWriter.new 512)
      (if trailingDot then joinDot labels ++ "." else joinDot labels)
      = .ok ⟨512, encNameBytes labels⟩ := by
  obtain ⟨hv, hv', hne1, hne1', hed, hed'⟩ := is_valid_name_joinDot hne hlab
  have hdots : ∀ l ∈ labels, '.' ∉ l.data :=
    fun l hl => (goodLabel_spec (hlab l hl)).2.2.2.2.2
  have hseg : ∀ l ∈ labels ++ [""],
      isAsciiString l = true ∧ is_valid_segment l = true ∧ l.data.length ≤ 63 := by
    intro l hl
    rcases List.mem_append.mp hl with hl | hl
    · have h := goodLabel_spec (hlab l hl)
      exact ⟨h.2.1, h.2.2.1, h.2.2.2.2.1⟩
    · rcases List.mem_cons.mp hl with rfl | hl
      · exact ⟨by decide, by decide, by decide⟩
      · cases hl
  have hseg' : ∀ l ∈ labels,
      isAsciiString l = true ∧ is_valid_segment l = true ∧ l.data.length ≤ 63 :=
    fun l hl => hseg l (List.mem_append.mpr (Or.inl hl))
  have hencApp : encLen (labels ++ [""]) = encLen labels + 1 := by
    rw [encLen_append]
    rfl
  have hbodyApp : nameBody (labels ++ [""]) = nameBody labels ++ [0] := by
    rw [nameBody_append]
    rfl
  cases trailingDot with
  | true =>
    rw [if_pos rfl]
    rw [write_name, if_neg (by rw [hv']; decide), if_neg hne1']
    rw [splitDot_joinDot_trailing hne hdots]
    rw [writeNameLoop_ok (labels ++ [""]) (MsgWriter.new 512) 0 hseg
      (by simp only [NAME_LIMIT] at hlen ⊢; omega)
      (by rw [hencApp]; simp only [MsgWriter.new, MESSAGE_LIMIT, NAME_LIMIT] at hlen ⊢
          simp
          omega)
      (by rw [hencApp]; simp only [MsgWriter.new, NAME_LIMIT] at hlen ⊢
          simp
          omega)]
    dsimp only
    rw [if_neg (by rw [hed']; decide)]
    rw [show (MsgWriter.new 512).data = [] from rfl, hbodyApp]
    rfl
  | false =>
    rw [if_neg Bool.false_ne_true]
    rw [write_name, if_neg (by rw [hv]; decide), if_neg hne1]
    rw [splitDot_joinDot hne hdots]
    rw [writeNameLoop_ok labels (MsgWriter.new 512) 0 hseg'
      (by simp only [NAME_LIMIT] at hlen ⊢; omega)
      (by simp only [MsgWriter.new, MESSAGE_LIMIT, NAME_LIMIT] at hlen ⊢
          simp
          omega)
      (by simp only [MsgWriter.new, NAME_LIMIT] at hlen ⊢
          simp
          omega)]
    dsimp only
    rw [if_pos (by rw [hed]; decide)]
    rw [if_neg (by simp only [NAME_LIMIT, not_lt] at hlen ⊢; omega)]
    rw [show MsgWriter.writeByte ⟨(MsgWriter.new 512).bufLen,
        (MsgWriter.new 512).data ++ nameBody labels⟩ 0
      = MsgWriter.write ⟨512, nameBody labels⟩ [0] from rfl]
    rw [write_ok
      (by simp only [List.length_cons, List.length_nil, nameBody_length,
            MESSAGE_LIMIT, NAME_LIMIT] at hlen ⊢
          omega)
      (by simp only [List.length_cons, List.length_nil, nameBody_length,
            NAME_LIMIT] at hlen ⊢
          omega)]
    rfl

theorem get?_append_len {α : Type} (pre : List α) (a : α) (rest : List α) :
    (pre ++ a :: rest).get? pre.length = some a := by
  rw [List.get?_append_right (Nat.le_refl _)]
  simp

theorem drop_append_len {α : Type} (pre : List α) (a : α) (rest : List α) :
    (pre ++ a :: rest).drop (pre.length + 1) = rest := by
  rw [show pre ++ a :: rest = (pre ++ [a]) ++ rest by simp,
    show pre.length + 1 = (pre ++ [a]).length by simp, List.drop_left]

theorem to_unicode_borrowed {s : String}
    (h : startsWithAsciiLowercase s "xn--" = false) :
    to_unicode s = .ok (.borrowed s) := by
  rw [to_unicode, h]
  rfl

theorem and192_eq_zero {n : Nat} (h : n ≤ 63) : n &&& 192 = 0 := by
  have : ∀ m, m < 64 → m &&& 192 = 0 := by decide
  exact this n (by omega)

theorem ascii_bytes_le {l : String} (h : isAsciiString l = true) :
    ∀ b ∈ utf8Bytes l, b ≤ 0x7F := by
  rw [utf8Bytes_ascii h]
  simp only [isAsciiString, List.all_eq_true] at h
  intro b hb
  rcases List.mem_map.mp hb with ⟨c, hc, rfl⟩
  simpa using h c hc

theorem readSegment_ok (l : String) (pre : List Nat) (rest : List Nat)
    (hascii : isAsciiString l = true) (hseg : is_valid_segment l = true)
    (hxn : startsWithAsciiLowercase l "xn--" = false) :
    readSegment (pre ++ utf8Bytes l ++ rest) pre.length (utf8Len l)
      = .ok (l, pre.length + utf8Len l) := by
  rw [readSegment, if_pos (by
    simp only [List.length_append]
    rw [show (utf8Bytes l).length = utf8Len l from rfl]
    omega)]
  rw [List.append_assoc, List.drop_left,
    show utf8Len l = (utf8Bytes l).length from rfl, List.take_left]
  rw [if_pos (by
    rw [List.all_eq_true]
    intro b hb
    simpa using ascii_bytes_le hascii b hb)]
  rw [show (utf8Bytes l).map Char.ofNat = l.data by
    rw [utf8Bytes_ascii hascii]; exact ofNat_toNat_map l.data]
  rw [show String.mk l.data = l from rfl]
  rw [if_pos hseg, to_unicode_borrowed hxn]
  rfl

theorem dotsJoin_ne_empty (res l : String) (rest : List String) :
    res ++ dotsJoin (l :: rest) ≠ "" := by
  intro h
  have : (res ++ dotsJoin (l :: rest)).data = [] := by rw [h]
  rw [String.data_append] at this
  rw [show dotsJoin (l :: rest) = l ++ "." ++ dotsJoin rest from rfl] at this
  rw [String.data_append, String.data_append] at this
  simp at this

theorem readNameLoop_ok :
    ∀ (labels : List String) (pre post : List Nat) (sp : Nat) (res : String)
      (t fuel : Nat),
    (∀ l ∈ labels, l ≠ "" ∧ isAsciiString l = true ∧ is_valid_segment l = true ∧
      startsWithAsciiLowercase l "xn--" = false ∧ l.data.length ≤ 63) →
    t + encLen labels + 1 ≤ NAME_LIMIT →
    labels.length + 1 ≤ fuel →
    readNameLoop (pre ++ nameBody labels ++ 0 :: post) sp fuel pre.length none res t
      = some (.ok
          ((if res ++ dotsJoin labels = "" then "." else res ++ dotsJoin labels),
           pre.length + encLen labels + 1)) := by
  intro labels
  induction labels with
  | nil =>
    intro pre post sp res t fuel _ hname hfuel
    obtain ⟨f, rfl⟩ : ∃ f, fuel = f + 1 := ⟨fuel - 1, by omega⟩
    rw [readNameLoop]
    rw [show pre ++ nameBody [] ++ 0 :: post = pre ++ 0 :: post by simp [nameBody]]
    rw [get?_append_len]
    dsimp only
    rw [if_pos rfl, if_neg (by simp only [NAME_LIMIT, encLen] at hname ⊢; omega)]
    simp [dotsJoin, encLen, String.append_empty]
  | cons l rest ih =>
    intro pre post sp res t fuel hlab hname hfuel
    obtain ⟨f, rfl⟩ : ∃ f, fuel = f + 1 := ⟨fuel - 1, by omega⟩
    have hl := hlab l (List.mem_cons_self _ _)
    have hLen : utf8Len l = l.data.length := utf8Len_ascii hl.2.1
    have hle63 : utf8Len l ≤ 63 := by rw [hLen]; exact hl.2.2.2.2
    have hlen0 : utf8Len l ≠ 0 := by
      rw [hLen]
      intro h0
      exact hl.1 (string_eq_of_data (List.length_eq_zero.mp h0))
    have henc := encLen_cons l rest
    rw [readNameLoop]
    rw [show pre ++ nameBody (l :: rest) ++ 0 :: post
        = pre ++ utf8Len l :: (utf8Bytes l ++ (nameBody rest ++ 0 :: post)) by
      rw [nameBody_cons]; simp]
    rw [get?_append_len]
    dsimp only
    rw [if_neg hlen0]
    rw [if_neg (by rw [and192_eq_zero hle63]; decide)]
    rw [if_neg (by rw [and192_eq_zero hle63]; simp)]
    rw [if_neg (by simp only [NAME_LIMIT] at hname ⊢; omega)]
    have hsegread := readSegment_ok l (pre ++ [utf8Len l])
      (nameBody rest ++ 0 :: post) hl.2.1 hl.2.2.1 hl.2.2.2.1
    rw [show pre ++ utf8Len l :: (utf8Bytes l ++ (nameBody rest ++ 0 :: post))
        = (pre ++ [utf8Len l]) ++ utf8Bytes l ++ (nameBody rest ++ 0 :: post) by simp,
      show pre.length + 1 = (pre ++ [utf8Len l]).length by simp]
    rw [hsegread]
    dsimp only
    rw [show (pre ++ [utf8Len l]).length + utf8Len l
        = ((pre ++ [utf8Len l]) ++ utf8Bytes l).length by
      simp only [List.length_append, List.length_cons, List.length_nil,
        show (utf8Bytes l).length = utf8Len l from rfl]]
    rw [show (pre ++ [utf8Len l]) ++ utf8Bytes l ++ (nameBody rest ++ 0 :: post)
        = ((pre ++ [utf8Len l]) ++ utf8Bytes l) ++ nameBody rest ++ 0 :: post by simp]
    rw [ih ((pre ++ [utf8Len l]) ++ utf8Bytes l) post sp (res ++ l ++ ".")
      (t + 1 + utf8Len l) f
      (fun x hx => hlab x (List.mem_cons_of_mem _ hx))
      (by simp only [NAME_LIMIT] at hname ⊢; omega)
      (by simp only [List.length_cons] at hfuel; omega)]
    have hne1 : res ++ l ++ "." ++ dotsJoin rest ≠ "" := by
      rw [show res ++ l ++ "." ++ dotsJoin rest = res ++ (l ++ ("." ++ dotsJoin rest)) by
        rw [String.append_assoc, String.append_assoc]]
      rw [show l ++ ("." ++ dotsJoin rest) = dotsJoin (l :: rest) by
        rw [← String.append_assoc]; rfl]
      exact dotsJoin_ne_empty res l rest
    have hne2 : res ++ dotsJoin (l :: rest) ≠ "" := dotsJoin_ne_empty res l rest
    rw [if_neg hne1, if_neg hne2]
    congr 1
    rw [Except.ok.injEq, Prod.mk.injEq]
    constructor
    · rw [show dotsJoin (l :: rest) = l ++ "." ++ dotsJoin rest from rfl]
      rw [String.append_assoc, String.append_assoc, String.append_assoc]
    · simp only [List.length_append, List.length_cons, List.length_nil,
        show (utf8Bytes l).length = utf8Len l from rfl]
      omega

theorem dotsJoin_eq_joinDot :
    ∀ {labels : List String}, labels ≠ [] →
    dotsJoin labels = joinDot labels ++ "." := by
  intro labels
  induction labels with
  | nil => intro h; exact absurd rfl h
  | cons l rest ih =>
    intro _
    cases rest with
    | nil =>
      show l ++ "." ++ dotsJoin [] = joinDot [l] ++ "."
      rw [show dotsJoin [] = "" from rfl, String.append_assoc, String.append_empty]
      rfl
    | cons r rs =>
      show l ++ "." ++ dotsJoin (r :: rs) = joinDot (l :: r :: rs) ++ "."
      rw [ih (by simp)]
      rw [show joinDot (l :: r :: rs) = l ++ "." ++ joinDot (r :: rs) from rfl]
      rw [String.append_assoc, String.append_assoc, String.append_assoc]

theorem length_le_encLen (labels : List String) :
    labels.length ≤ encLen labels := by
  induction labels with
  | nil => exact Nat.le_refl _
  | cons l rest ih =>
    rw [encLen_cons, List.length_cons]
    omega

theorem encNameBytes_length (labels : List String) :
    (encNameBytes labels).length = encLen labels + 1 := by
  simp [encNameBytes, nameBody_length]

/-- Counterexample for C5: the name `-a.com` satisfies §3's validity
rules (nonempty, no `..`, no leading dot, labels of 1–63 ASCII bytes,
encoded total 9 ≤ 255), yet `write_name` rejects it with `InvalidName`
because its first label begins with `-`; `decode(encode(N))` therefore
cannot return any name at all, contradicting the claim. -/
theorem claim_C5_counterexample :
    spec3Valid "-a.com" = true
    ∧ write_name (MsgWriter.new 512) "-a.com" = .error .InvalidName :=
  ⟨by decide, by decide⟩

theorem toAsciiStr_ok {l a : String} (h : toAsciiStr l = .ok a) :
    ∃ cow, to_ascii l = .ok cow ∧ cow.str = a := by
  rw [toAsciiStr] at h
  cases hc : to_ascii l with
  | ok c =>
    rw [hc] at h
    dsimp only at h
    exact ⟨c, rfl, Except.ok.inj h⟩
  | error e =>
    rw [hc] at h
    dsimp only at h
    exact Except.noConfusion h

theorem toUnicodeStr_ok {a l : String} (h : toUnicodeStr a = .ok l) :
    ∃ cow, to_unicode a = .ok cow ∧ cow.str = l := by
  rw [toUnicodeStr] at h
  cases hc : to_unicode a with
  | ok c =>
    rw [hc] at h
    dsimp only at h
    exact ⟨c, rfl, Except.ok.inj h⟩
  | error e =>
    rw [hc] at h
    dsimp only at h
    exact Except.noConfusion h

theorem goodPair_spec {l a : String} (h : goodPair l a = true) :
    l ≠ "" ∧ '.' ∉ l.data ∧ toAsciiStr l = .ok a ∧ a ≠ "" ∧
      isAsciiString a = true ∧ is_valid_segment a = true ∧
      a.data.length ≤ 63 ∧ toUnicodeStr a = .ok l := by
  simp only [goodPair, Bool.and_eq_true, decide_eq_true_eq] at h
  tauto

theorem utf8EncodeChar_ne_nil (c : Char) : utf8EncodeChar c ≠ [] := by
  rw [utf8EncodeChar]
  split
  · simp
  split
  · simp
  split
  · simp
  · simp

theorem utf8Len_ne_zero (s : String) (c : Char) (cs : List Char)
    (h : s.data = c :: cs) : utf8Len s ≠ 0 := by
  rw [utf8Len, utf8Bytes, h]
  simp only [List.map_cons, List.flatten_cons, List.length_append]
  intro h0
  exact utf8EncodeChar_ne_nil c (List.length_eq_zero.mp (by omega))

theorem is_valid_name_joinDot2 {labels : List String}
    (hne : labels ≠ []) (hlab : ∀ l ∈ labels, l ≠ "" ∧ '.' ∉ l.data) :
    is_valid_name (joinDot labels) = true
    ∧ is_valid_name (joinDot labels ++ ".") = true
    ∧ joinDot labels ≠ "."
    ∧ joinDot labels ++ "." ≠ "."
    ∧ endsWithDot (joinDot labels) = false
    ∧ endsWithDot (joinDot labels ++ ".") = true := by
  obtain ⟨l1, rest, rfl⟩ : ∃ l1 rest, labels = l1 :: rest := by
    cases labels with
    | nil => exact absurd rfl hne
    | cons a b => exact ⟨a, b, rfl⟩
  have h1 := hlab l1 (List.mem_cons_self _ _)
  obtain ⟨c, cs, hdata, hhead⟩ := joinDot_head l1 rest h1.1
  have hl1head : l1.data.head? = some c := by rw [← hhead, hdata]; rfl
  have hcmem : c ∈ l1.data := by
    cases hl : l1.data with
    | nil => rw [hl] at hl1head; cases hl1head
    | cons x xs =>
      rw [hl] at hl1head
      simp only [List.head?_cons, Option.some.injEq] at hl1head
      rw [← hl1head]
      exact List.mem_cons_self _ _
  have hcdot : c ≠ '.' := fun heq => h1.2 (heq ▸ hcmem)
  have hdd : containsDotDot (joinDot (l1 :: rest)) = false := by
    have := joinDot_no_dotdot hne hlab []
    rw [List.append_nil] at this
    exact this.trans rfl
  have hdd' : containsDotDot (joinDot (l1 :: rest) ++ ".") = false := by
    have := joinDot_no_dotdot hne hlab ['.']
    rw [containsDotDot, String.data_append]
    exact this.trans rfl
  have hsw : startsWithDotB (joinDot (l1 :: rest)) = false := by
    rw [startsWithDotB, hdata]
    simp [hcdot]
  have hsw' : startsWithDotB (joinDot (l1 :: rest) ++ ".") = false := by
    rw [startsWithDotB, String.data_append, hdata]
    simp [hcdot]
  have hlen : utf8Len (joinDot (l1 :: rest)) ≠ 0 :=
    utf8Len_ne_zero _ c (cs) hdata
  have hlen' : utf8Len (joinDot (l1 :: rest) ++ ".") ≠ 0 :=
    utf8Len_ne_zero _ c (cs ++ ['.']) (by rw [String.data_append, hdata]; rfl)
  refine ⟨?_, ?_, ?_, ?_, ?_, ?_⟩
  · rw [is_valid_name]
    simp [hlen, hsw, hdd]
  · rw [is_valid_name]
    simp [hlen', hsw', hdd']
  · intro heq
    have : (joinDot (l1 :: rest)).data = ['.'] := by rw [heq]
    rw [hdata] at this
    cases this
    exact hcdot rfl
  · intro heq
    have h2 : (joinDot (l1 :: rest) ++ ".").data = ['.'] := by rw [heq]
    rw [String.data_append, hdata] at h2
    have h3 : c = '.' := by
      have := congrArg List.head? h2
      simpa using this
    exact hcdot h3
  · obtain ⟨x, hx, hxd⟩ := joinDot_getLast hne hlab
    rw [endsWithDot, hx]
    simp [hxd]
  · rw [endsWithDot, String.data_append]
    rw [show ("." : String).data = ['.'] from rfl, List.getLast?_concat]
    rfl

theorem writeNameLoop_ok2 :
    ∀ (ps : List (String × String)) (w : MsgWriter) (t : Nat),
    (∀ p ∈ ps, toAsciiStr p.1 = .ok p.2 ∧ isAsciiString p.2 = true ∧
      is_valid_segment p.2 = true ∧ p.2.data.length ≤ 63) →
    t + encLen (ps.map Prod.snd) ≤ NAME_LIMIT →
    w.data.length + encLen (ps.map Prod.snd) ≤ MESSAGE_LIMIT →
    w.data.length + encLen (ps.map Prod.snd) ≤ w.bufLen →
    writeNameLoop w t (ps.map Prod.fst)
      = .ok (⟨w.bufLen, w.data ++ nameBody (ps.map Prod.snd)⟩,
          t + encLen (ps.map Prod.snd)) := by
  intro ps
  induction ps with
  | nil =>
    intro w t _ _ _ _
    simp [writeNameLoop, encLen, nameBody]
  | cons p rest ih =>
    obtain ⟨l, a⟩ := p
    intro w t hlab hname hlim hbuf
    have hl := hlab (l, a) (List.mem_cons_self _ _)
    obtain ⟨cow, hcow, hstr⟩ := toAsciiStr_ok hl.1
    have hLen : utf8Len a = a.data.length := utf8Len_ascii hl.2.1
    have hle : utf8Len a ≤ 63 := by rw [hLen]; exact hl.2.2.2
    simp only [List.map_cons] at hname hlim hbuf ⊢
    have henc := encLen_cons a (rest.map Prod.snd)
    rw [henc] at hname hlim hbuf
    rw [writeNameLoop, hcow]
    dsimp only
    rw [hstr]
    rw [if_neg (by simp [hl.2.2.1])]
    rw [if_neg (by simp only [LABEL_LIMIT, not_lt]; exact hle)]
    rw [if_neg (by simp only [NAME_LIMIT, not_lt] at hname ⊢; omega)]
    rw [show MsgWriter.writeByte w (utf8Len a % 256)
        = w.write [utf8Len a % 256] from rfl]
    rw [Nat.mod_eq_of_lt (by omega)]
    rw [write_ok
      (by simp only [List.length_cons, List.length_nil, MESSAGE_LIMIT] at hlim ⊢
          omega)
      (by simp only [List.length_cons, List.length_nil]
          omega)]
    dsimp only
    rw [write_ok
      (by simp only [List.length_append, List.length_cons, List.length_nil,
            utf8Bytes_length_ascii hl.2.1, MESSAGE_LIMIT] at hlim ⊢
          omega)
      (by simp only [List.length_append, List.length_cons, List.length_nil,
            utf8Bytes_length_ascii hl.2.1]
          omega)]
    dsimp only
    rw [ih _ _ (fun x hx => hlab x (List.mem_cons_of_mem _ hx))
      (by simp only [NAME_LIMIT] at hname ⊢; omega)
      (by simp only [List.length_append, List.length_cons, List.length_nil,
          utf8Bytes_length_ascii hl.2.1, MESSAGE_LIMIT] at hlim ⊢
          omega)
      (by simp only [List.length_append, List.length_cons, List.length_nil,
          utf8Bytes_length_ascii hl.2.1]
          omega)]
    simp only [Except.ok.injEq, Prod.mk.injEq, MsgWriter.mk.injEq, nameBody_cons]
    refine ⟨⟨trivial, ?_⟩, ?_⟩
    · simp [List.append_assoc]
    · omega

theorem write_name_ok2 {ps : List (String × String)} (trailingDot : Bool)
    (hne : ps ≠ []) (hlab : ∀ p ∈ ps, goodPair p.1 p.2 = true)
    (hlen : encLen (ps.map Prod.snd) + 1 ≤ NAME_LIMIT) :
    write_name (MsgWriter.new 512)
      (if trailingDot then joinDot (ps.map Prod.fst) ++ "."
       else joinDot (ps.map Prod.fst))
      = .ok ⟨512, encNameBytes (ps.map Prod.snd)⟩ := by
  have hlne : ps.map Prod.fst ≠ [] := by
    cases ps with
    | nil => exact absurd rfl hne
    | cons p r => simp
  have hfst : ∀ l ∈ ps.map Prod.fst, l ≠ "" ∧ '.' ∉ l.data := by
    intro l hl
    rcases List.mem_map.mp hl with ⟨p, hp, rfl⟩
    have h := goodPair_spec (hlab p hp)
    exact ⟨h.1, h.2.1⟩
  obtain ⟨hv, hv', hne1, hne1', hed, hed'⟩ := is_valid_name_joinDot2 hlne hfst
  have hdots : ∀ l ∈ ps.map Prod.fst, '.' ∉ l.data := fun l hl => (hfst l hl).2
  have hseg : ∀ p ∈ ps ++ [(("" : String), ("" : String))],
      toAsciiStr p.1 = .ok p.2 ∧ isAsciiString p.2 = true ∧
        is_valid_segment p.2 = true ∧ p.2.data.length ≤ 63 := by
    intro p hp
    rcases List.mem_append.mp hp with hp | hp
    · have h := goodPair_spec (hlab p hp)
      exact ⟨h.2.2.1, h.2.2.2.2.1, h.2.2.2.2.2.1, h.2.2.2.2.2.2.1⟩
    · rcases List.mem_cons.mp hp with rfl | hp
      · exact ⟨by decide, by decide, by decide, by decide⟩
      · cases hp
  have hseg' : ∀ p ∈ ps,
      toAsciiStr p.1 = .ok p.2 ∧ isAsciiString p.2 = true ∧
        is_valid_segment p.2 = true ∧ p.2.data.length ≤ 63 :=
    fun p hp => hseg p (List.mem_append.mpr (Or.inl hp))
  have hmapf : (ps ++ [(("" : String), ("" : String))]).map Prod.fst
      = ps.map Prod.fst ++ [""] := by simp
  have hmaps : (ps ++ [(("" : String), ("" : String))]).map Prod.snd
      = ps.map Prod.snd ++ [""] := by simp
  have hencApp : encLen ((ps ++ [(("" : String), ("" : String))]).map Prod.snd)
      = encLen (ps.map Prod.snd) + 1 := by
    rw [hmaps, encLen_append]
    rfl
  have hbodyApp : nameBody ((ps ++ [(("" : String), ("" : String))]).map Prod.snd)
      = nameBody (ps.map Prod.snd) ++ [0] := by
    rw [hmaps, nameBody_append]
    rfl
  cases trailingDot with
  | true =>
    rw [if_pos rfl]
    rw [write_name, if_neg (by rw [hv']; decide), if_neg hne1']
    rw [splitDot_joinDot_trailing hlne hdots]
    rw [← hmapf]
    rw [writeNameLoop_ok2 (ps ++ [("", "")]) (MsgWriter.new 512) 0 hseg
      (by rw [hencApp]; simp only [NAME_LIMIT] at hlen ⊢; omega)
      (by rw [hencApp]; simp only [MsgWriter.new, MESSAGE_LIMIT, NAME_LIMIT] at hlen ⊢
          simp
          omega)
      (by rw [hencApp]; simp only [MsgWriter.new, NAME_LIMIT] at hlen ⊢
          simp
          omega)]
    dsimp only
    rw [if_neg (by rw [hed']; decide)]
    rw [show (MsgWriter.new 512).data = [] from rfl, hbodyApp]
    rfl
  | false =>
    rw [if_neg Bool.false_ne_true]
    rw [write_name, if_neg (by rw [hv]; decide), if_neg hne1]
    rw [splitDot_joinDot hlne hdots]
    rw [writeNameLoop_ok2 ps (MsgWriter.new 512) 0 hseg'
      (by simp only [NAME_LIMIT] at hlen ⊢; omega)
      (by simp only [MsgWriter.new, MESSAGE_LIMIT, NAME_LIMIT] at hlen ⊢
          simp
          omega)
      (by simp only [MsgWriter.new, NAME_LIMIT] at hlen ⊢
          simp
          omega)]
    dsimp only
    rw [if_pos (by rw [hed]; decide)]
    rw [if_neg (by simp only [NAME_LIMIT, not_lt] at hlen ⊢; omega)]
    rw [show MsgWriter.writeByte ⟨(MsgWriter.new 512).bufLen,
        (MsgWriter.new 512).data ++ nameBody (ps.map Prod.snd)⟩ 0
      = MsgWriter.write ⟨512, nameBody (ps.map Prod.snd)⟩ [0] from rfl]
    rw [write_ok
      (by simp only [List.length_cons, List.length_nil, nameBody_length,
            MESSAGE_LIMIT, NAME_LIMIT] at hlen ⊢
          omega)
      (by simp only [List.length_cons, List.length_nil, nameBody_length,
            NAME_LIMIT] at hlen ⊢
          omega)]
    rfl

theorem readSegment_ok2 (l a : String) (pre rest : List Nat)
    (hascii : isAsciiString a = true) (hseg : is_valid_segment a = true)
    (hdec : toUnicodeStr a = .ok l) :
    readSegment (pre ++ utf8Bytes a ++ rest) pre.length (utf8Len a)
      = .ok (l, pre.length + utf8Len a) := by
  obtain ⟨cow, hcow, hstr⟩ := toUnicodeStr_ok hdec
  rw [readSegment, if_pos (by
    simp only [List.length_append]
    rw [show (utf8Bytes a).length = utf8Len a from rfl]
    omega)]
  rw [List.append_assoc, List.drop_left,
    show utf8Len a = (utf8Bytes a).length from rfl, List.take_left]
  rw [if_pos (by
    rw [List.all_eq_true]
    intro b hb
    simpa using ascii_bytes_le hascii b hb)]
  rw [show (utf8Bytes a).map Char.ofNat = a.data by
    rw [utf8Bytes_ascii hascii]; exact ofNat_toNat_map a.data]
  rw [show String.mk a.data = a from rfl]
  rw [if_pos hseg, hcow]
  dsimp only
  rw [hstr]

theorem readNameLoop_ok2 :
    ∀ (ps : List (String × String)) (pre post : List Nat) (sp : Nat) (res : String)
      (t fuel : Nat),
    (∀ p ∈ ps, p.2 ≠ "" ∧ isAsciiString p.2 = true ∧ is_valid_segment p.2 = true ∧
      toUnicodeStr p.2 = .ok p.1 ∧ p.2.data.length ≤ 63) →
    t + encLen (ps.map Prod.snd) + 1 ≤ NAME_LIMIT →
    ps.length + 1 ≤ fuel →
    readNameLoop (pre ++ nameBody (ps.map Prod.snd) ++ 0 :: post) sp fuel
        pre.length none res t
      = some (.ok
          ((if res ++ dotsJoin (ps.map Prod.fst) = "" then "."
            else res ++ dotsJoin (ps.map Prod.fst)),
           pre.length + encLen (ps.map Prod.snd) + 1)) := by
  intro ps
  induction ps with
  | nil =>
    intro pre post sp res t fuel _ hname hfuel
    obtain ⟨f, rfl⟩ : ∃ f, fuel = f + 1 := ⟨fuel - 1, by omega⟩
    rw [readNameLoop]
    rw [show pre ++ nameBody (([] : List (String × String)).map Prod.snd) ++ 0 :: post
        = pre ++ 0 :: post by simp [nameBody]]
    rw [get?_append_len]
    dsimp only
    rw [if_pos rfl, if_neg (by
      simp only [List.map_nil, NAME_LIMIT, encLen] at hname ⊢
      omega)]
    simp [dotsJoin, encLen, String.append_empty]
  | cons p rest ih =>
    obtain ⟨l, a⟩ := p
    intro pre post sp res t fuel hlab hname hfuel
    obtain ⟨f, rfl⟩ : ∃ f, fuel = f + 1 := ⟨fuel - 1, by omega⟩
    have hl := hlab (l, a) (List.mem_cons_self _ _)
    have hLen : utf8Len a = a.data.length := utf8Len_ascii hl.2.1
    have hle63 : utf8Len a ≤ 63 := by rw [hLen]; exact hl.2.2.2.2
    have hlen0 : utf8Len a ≠ 0 := by
      rw [hLen]
      intro h0
      exact hl.1 (string_eq_of_data (List.length_eq_zero.mp h0))
    simp only [List.map_cons] at hname ⊢
    have henc := encLen_cons a (rest.map Prod.snd)
    rw [henc] at hname
    rw [readNameLoop]
    rw [show pre ++ nameBody (a :: rest.map Prod.snd) ++ 0 :: post
        = pre ++ utf8Len a
            :: (utf8Bytes a ++ (nameBody (rest.map Prod.snd) ++ 0 :: post)) by
      rw [nameBody_cons]; simp]
    rw [get?_append_len]
    dsimp only
    rw [if_neg hlen0]
    rw [if_neg (by rw [and192_eq_zero hle63]; decide)]
    rw [if_neg (by rw [and192_eq_zero hle63]; simp)]
    rw [if_neg (by simp only [NAME_LIMIT] at hname ⊢; omega)]
    have hsegread := readSegment_ok2 l a (pre ++ [utf8Len a])
      (nameBody (rest.map Prod.snd) ++ 0 :: post) hl.2.1 hl.2.2.1 hl.2.2.2.1
    rw [show pre ++ utf8Len a
          :: (utf8Bytes a ++ (nameBody (rest.map Prod.snd) ++ 0 :: post))
        = (pre ++ [utf8Len a]) ++ utf8Bytes a
            ++ (nameBody (rest.map Prod.snd) ++ 0 :: post) by simp,
      show pre.length + 1 = (pre ++ [utf8Len a]).length by simp]
    rw [hsegread]
    dsimp only
    rw [show (pre ++ [utf8Len a]).length + utf8Len a
        = ((pre ++ [utf8Len a]) ++ utf8Bytes a).length by
      simp only [List.length_append, List.length_cons, List.length_nil,
        show (utf8Bytes a).length = utf8Len a from rfl]]
    rw [show (pre ++ [utf8Len a]) ++ utf8Bytes a
          ++ (nameBody (rest.map Prod.snd) ++ 0 :: post)
        = ((pre ++ [utf8Len a]) ++ utf8Bytes a)
            ++ nameBody (rest.map Prod.snd) ++ 0 :: post by simp]
    rw [ih ((pre ++ [utf8Len a]) ++ utf8Bytes a) post sp (res ++ l ++ ".")
      (t + 1 + utf8Len a) f
      (fun x hx => hlab x (List.mem_cons_of_mem _ hx))
      (by simp only [NAME_LIMIT] at hname ⊢; omega)
      (by simp only [List.length_cons] at hfuel; omega)]
    have hne1 : res ++ l ++ "." ++ dotsJoin (rest.map Prod.fst) ≠ "" := by
      rw [show res ++ l ++ "." ++ dotsJoin (rest.map Prod.fst)
          = res ++ (l ++ ("." ++ dotsJoin (rest.map Prod.fst))) by
        rw [String.append_assoc, String.append_assoc]]
      rw [show l ++ ("." ++ dotsJoin (rest.map Prod.fst))
          = dotsJoin (l :: rest.map Prod.fst) by
        rw [← String.append_assoc]; rfl]
      exact dotsJoin_ne_empty res l (rest.map Prod.fst)
    have hne2 : res ++ dotsJoin (l :: rest.map Prod.fst) ≠ "" :=
      dotsJoin_ne_empty res l (rest.map Prod.fst)
    rw [if_neg hne1, if_neg hne2]
    congr 1
    rw [Except.ok.injEq, Prod.mk.injEq]
    constructor
    · rw [show dotsJoin (l :: rest.map Prod.fst)
          = l ++ "." ++ dotsJoin (rest.map Prod.fst) from rfl]
      rw [String.append_assoc, String.append_assoc, String.append_assoc]
    · simp only [List.length_append, List.length_cons, List.length_nil,
        show (utf8Bytes a).length = utf8Len a from rfl]
      omega

/-- C5 (amended): a name presented as its labels `l` paired with their
wire forms `a`, where each pair satisfies the conversion conditions the
code itself imposes — `l` nonempty and dot-free, `idna::to_ascii l`
succeeding with result `a` (for ASCII labels `a = l`), `a` nonempty ASCII
accepted by `is_valid_segment` and at most 63 bytes, and
`idna::to_unicode a` mapping back to `l` — with total encoded length at
most 255, round-trips: `write_name` emits exactly the wire encoding (one
length octet per label, the label bytes, the final zero octet) of the
`a`s, and `read_name` on those bytes returns the name with a trailing dot
appended when it lacked one. The conversion conditions hold automatically
for ASCII labels not beginning case-insensitively with `xn--`, and for
IDN labels (such as `bücher`, wire form `xn--bcher-kva`) whose punycode
form decodes back. The root name `.` encodes as the single zero byte and
decodes back to `.`. -/
theorem claim_C5_name_roundtrip :
    (∀ (ps : List (String × String)) (trailingDot : Bool),
      ps ≠ [] → (∀ p ∈ ps, goodPair p.1 p.2 = true) →
      encLen (ps.map Prod.snd) + 1 ≤ NAME_LIMIT →
      write_name (MsgWriter.new 512)
          (if trailingDot then joinDot (ps.map Prod.fst) ++ "."
           else joinDot (ps.map Prod.fst))
        = .ok ⟨512, encNameBytes (ps.map Prod.snd)⟩
      ∧ read_name (MsgReader.new (encNameBytes (ps.map Prod.snd)))
          ((encNameBytes (ps.map Prod.snd)).length + 1)
        = some (.ok (joinDot (ps.map Prod.fst) ++ ".",
            ⟨encNameBytes (ps.map Prod.snd),
             (encNameBytes (ps.map Prod.snd)).length⟩)))
    ∧ write_name (MsgWriter.new 512) "." = .ok ⟨512, [0]⟩
    ∧ read_name (MsgReader.new [0]) 2 = some (.ok (".", ⟨[0], 1⟩)) := by
  refine ⟨?_, by decide, by decide⟩
  intro ps trailingDot hne hlab hlen
  refine ⟨write_name_ok2 trailingDot hne hlab hlen, ?_⟩
  rw [read_name]
  have hprops : ∀ p ∈ ps, p.2 ≠ "" ∧ isAsciiString p.2 = true ∧
      is_valid_segment p.2 = true ∧ toUnicodeStr p.2 = .ok p.1 ∧
      p.2.data.length ≤ 63 := by
    intro p hp
    have h := goodPair_spec (hlab p hp)
    exact ⟨h.2.2.2.1, h.2.2.2.2.1, h.2.2.2.2.2.1, h.2.2.2.2.2.2.2,
      h.2.2.2.2.2.2.1⟩
  have h := readNameLoop_ok2 ps [] [] 0 "" 0
      ((encNameBytes (ps.map Prod.snd)).length + 1)
    hprops (by simpa using hlen)
    (by rw [encNameBytes_length]
        have h2 := length_le_encLen (ps.map Prod.snd)
        rw [List.length_map] at h2
        omega)
  rw [show ([] : List Nat) ++ nameBody (ps.map Prod.snd) ++ 0 :: []
      = encNameBytes (ps.map Prod.snd) by simp [encNameBytes]] at h
  rw [show ([] : List Nat).length = 0 from rfl] at h
  rw [show (MsgReader.new (encNameBytes (ps.map Prod.snd))).data
      = encNameBytes (ps.map Prod.snd) from rfl,
    show (MsgReader.new (encNameBytes (ps.map Prod.snd))).pos = 0 from rfl]
  rw [h]
  obtain ⟨p1, rest, rfl⟩ : ∃ p1 rest, ps = p1 :: rest := by
    cases ps with
    | nil => exact absurd rfl hne
    | cons a b => exact ⟨a, b, rfl⟩
  have hmf : (p1 :: rest).map Prod.fst = p1.1 :: rest.map Prod.fst := rfl
  rw [if_neg (by
    rw [String.empty_append]
    rw [hmf, dotsJoin_eq_joinDot (by simp : p1.1 :: rest.map Prod.fst ≠ [])]
    intro hbad
    have hd : (joinDot (p1.1 :: rest.map Prod.fst) ++ ".").data = [] := by
      rw [hbad]
    rw [String.data_append] at hd
    simp at hd)]
  rw [String.empty_append, hmf,
    dotsJoin_eq_joinDot (by simp : p1.1 :: rest.map Prod.fst ≠ [])]
  rw [show (0 : Nat) + encLen ((p1 :: rest).map Prod.snd) + 1
      = encLen ((p1 :: rest).map Prod.snd) + 1 by omega,
    ← encNameBytes_length]

/-- Witness for C5: the round trip instantiated at the IDN name
`bücher.de.` — the label `bücher` travels on the wire as its punycode
form `xn--bcher-kva` and is decoded back, matching the repository's
`test_idna_name`. -/
theorem claim_C5_name_roundtrip_witness :
    write_name (MsgWriter.new 512) "bücher.de."
      = .ok ⟨512, encNameBytes ["xn--bcher-kva", "de"]⟩
    ∧ read_name (MsgReader.new (encNameBytes ["xn--bcher-kva", "de"]))
        ((encNameBytes ["xn--bcher-kva", "de"]).length + 1)
      = some (.ok ("bücher.de.", ⟨encNameBytes ["xn--bcher-kva", "de"],
          (encNameBytes ["xn--bcher-kva", "de"]).length⟩)) := by
  have h := claim_C5_name_roundtrip.1
    [("bücher", "xn--bcher-kva"), ("de", "de")] true
    (by decide) (by decide) (by decide)
  have ms : [("bücher", "xn--bcher-kva"), ("de", "de")].map Prod.snd
      = ["xn--bcher-kva", "de"] := rfl
  constructor
  · have e : (if (true : Bool) = true
        then joinDot ([("bücher", "xn--bcher-kva"), ("de", "de")].map Prod.fst)
          ++ "."
        else joinDot ([("bücher", "xn--bcher-kva"), ("de", "de")].map Prod.fst))
        = "bücher.de." := by decide
    rw [← ms, ← e]
    exact h.1
  · have e2 : joinDot ([("bücher", "xn--bcher-kva"), ("de", "de")].map Prod.fst)
        ++ "." = "bücher.de." := by decide
    rw [← ms, ← e2]
    exact h.2

end Resolve
